import Mathlib

/-!
A shallow embedding of `app/server.go`.

The server reads one request into a byte buffer, parses it with `httpReqParser`,
dispatches it with `endpointMapper` and writes the returned string back.  This file
embeds the parser, the dispatcher, the handlers and the serializer as Lean functions and
proves properties of them.

Conventions of the embedding:

* a Go `string` or `[]byte` is a list of bytes (`Str`); `len` is `List.length`;
* a run-time panic (index out of range, `make` with a length that is negative or above
  the allocation limit) is the `error` side of `Except Panic`; a function that cannot
  panic is a plain function;
* the file system touched by `os.ReadFile` / `os.WriteFile` is an explicit state `FS`,
  threaded through the handlers that use it;
* `compress/gzip` is not part of the program: `gzipCompression` is a parameter;
* the global `directoryPath` is a parameter.
-/

namespace HttpServer

/-! ## Go values and library functions -/

/-- A Go `string` (or `[]byte`): a finite sequence of bytes. -/
abbrev Str := List UInt8

/-- The bytes of a string literal of the Go source (Go source text is UTF-8). -/
def bytes (s : String) : Str := s.data.flatMap String.utf8EncodeChar

/-- Run-time panics of the Go program. -/
inductive Panic where
  /-- The panic `index out of range [i] with length n`. -/
  | indexOutOfRange (i n : Nat)
  /-- The panic `makeslice: len out of range`. -/
  | makesliceLenOutOfRange
  deriving DecidableEq

/-- The Go index expression `xs[i]`: the element, or the index-out-of-range panic. -/
def index {α : Type} (xs : List α) (i : Nat) : Except Panic α :=
  match xs.get? i with
  | some x => .ok x
  | none => .error (.indexOutOfRange i xs.length)

/-- Worker of `Split`.  The number is how many bytes of an already matched separator
are still to be skipped; the result is the list of pieces of the remaining input, the
first of which continues the piece being read. -/
def splitAux (sep : Str) : Nat → Str → List Str
  | _, [] => [[]]
  | k + 1, _ :: cs => splitAux sep k cs
  | 0, c :: cs =>
      if sep.isPrefixOf (c :: cs) then [] :: splitAux sep (sep.length - 1) cs
      else
        match splitAux sep 0 cs with
        | [] => [[c]]
        | l :: ls => (c :: l) :: ls

/-- The function `strings.Split(s, sep)` for a non-empty separator (the program only
uses the separators CRLF, space, slash and comma): the pieces of `s` between successive
non-overlapping occurrences of `sep`, found left to right.  There is always at least
one piece. -/
def Split (s sep : Str) : List Str := splitAux sep 0 s

/-- The function `strings.Join(elems, sep)`. -/
def Join : List Str → Str → Str
  | [], _ => []
  | [x], _ => x
  | x :: y :: rest, sep => x ++ sep ++ Join (y :: rest) sep

/-- Whether a byte is an ASCII decimal digit. -/
def isDigit (c : UInt8) : Bool := 48 ≤ c.toNat && c.toNat ≤ 57

/-- The value of a string of decimal digits, most significant first. -/
def digitsValue (ds : Str) : Nat := ds.foldl (fun acc c => 10 * acc + (c.toNat - 48)) 0

/-- The function `strconv.Atoi` on a 64-bit platform: an optional sign `+` or `-`, then
one or more decimal digits; `none` stands for a non-nil error (syntax or range). -/
def Atoi (s : Str) : Option Int :=
  let signed : Bool × Str :=
    match s with
    | c :: rest => if c = 45 then (true, rest) else if c = 43 then (false, rest) else (false, s)
    | [] => (false, s)
  let ds := signed.2
  if ds = [] ∨ ds.all isDigit = false then none
  else
    let v : Int := if signed.1 then - (digitsValue ds : Int) else (digitsValue ds : Int)
    if - (2 : Int) ^ 63 ≤ v ∧ v < (2 : Int) ^ 63 then some v else none

/-- The decimal digits of a natural number, as bytes. -/
def natDigits (n : Nat) : Str := (Nat.toDigits 10 n).map (fun c => c.toNat.toUInt8)

/-- The function `strconv.Itoa`. -/
def Itoa (i : Int) : Str :=
  match i with
  | Int.ofNat n => natDigits n
  | Int.negSucc n => 45 :: natDigits (n + 1)

/-- The allocation limit of the Go runtime in bytes (`maxAlloc`, which is 2^48 on
linux/amd64): `make` panics for a larger byte slice. -/
def maxAlloc : Nat := 2 ^ 48

/-- The expression `make([]byte, n)`: `n` zero bytes, or the panic
`makeslice: len out of range` when `n` is negative or above the allocation limit.
Memory within the allocation limit is taken to be available. -/
def make (n : Int) : Except Panic Str :=
  if n < 0 ∨ (maxAlloc : Int) < n then .error .makesliceLenOutOfRange
  else .ok (List.replicate n.toNat 0)

/-- The builtin `copy(dst, src)`, as the new contents of `dst`: the first
`min (len dst) (len src)` bytes come from `src`, the rest of `dst` is kept. -/
def copy (dst src : Str) : Str := src.take dst.length ++ dst.drop src.length

/-! ## The file system -/

/-- The state of the file system as the program sees it. -/
structure FS where
  /-- What `os.ReadFile` returns for a path: the contents, or `none` for an error. -/
  files : Str → Option Str
  /-- Whether `os.WriteFile` succeeds on a path. -/
  writable : Str → Bool
  /-- The calls made to `os.WriteFile` so far, as (path, data), latest first. -/
  writes : List (Str × Str)

/-- The call `os.ReadFile(path)`. -/
def osReadFile (fs : FS) (path : Str) : Option Str := fs.files path

/-- The call `os.WriteFile(path, data, 0644)`: whether it succeeded (`err == nil`) and
the state after it.  A successful write replaces the contents of the path. -/
def osWriteFile (fs : FS) (path data : Str) : Bool × FS :=
  if fs.writable path then
    (true, { fs with files := fun p => if p = path then some data else fs.files p,
                     writes := (path, data) :: fs.writes })
  else
    (false, { fs with writes := (path, data) :: fs.writes })

/-! ## The data model (`server.go`, lines 13-51) -/

structure method where
  methodType : Str
  methodUrl : Str
  deriving DecidableEq

structure requestLine where
  method : method
  httpVersion : Str
  deriving DecidableEq

structure statusLine where
  status : Str
  deriving DecidableEq

structure headers where
  host : Str
  userAgent : Str
  accept : Str
  contentType : Str
  acceptEncoding : Str
  contentEncoding : Str
  contentLength : Int
  deriving DecidableEq

structure requestBody where
  body : Str
  deriving DecidableEq

structure httpRequest where
  requestLine : requestLine
  requestBody : requestBody
  headers : headers
  deriving DecidableEq

structure httpResponse where
  statusLine : statusLine
  responseBody : requestBody
  headers : headers
  deriving DecidableEq

/-- The zero value `headers{}`. -/
def headers.zero : headers :=
  { host := [], userAgent := [], accept := [], contentType := [], acceptEncoding := [],
    contentEncoding := [], contentLength := 0 }

/-! ## The wire parser (`httpReqParser`, lines 98-135) -/

/-- One iteration of the header loop (lines 110-127): the headers after the line
`header` has been read. -/
def parseHeader (hs : headers) (header : Str) : Except Panic headers :=
  let headerSplit := Split header (bytes " ")
  match index headerSplit 0 with
  | .error e => .error e
  | .ok name =>
    if name = bytes "Host:" then
      match index headerSplit 1 with
      | .error e => .error e
      | .ok v => .ok { hs with host := v }
    else if name = bytes "User-Agent:" then
      match index headerSplit 1 with
      | .error e => .error e
      | .ok v => .ok { hs with userAgent := v }
    else if name = bytes "Accept:" then
      match index headerSplit 1 with
      | .error e => .error e
      | .ok v => .ok { hs with accept := v }
    else if name = bytes "Content-Length:" then
      match index headerSplit 1 with
      | .error e => .error e
      | .ok v =>
        match Atoi v with
        | none => .ok hs
        | some contentLength => .ok { hs with contentLength := contentLength }
    else if name = bytes "Accept-Encoding:" then
      .ok { hs with acceptEncoding := Join (headerSplit.drop 1) [] }
    else .ok hs

/-- The header loop (lines 107-130).  The list is `lines[headerIndex:]`, `n` is
`len(lines)`; reading `lines[headerIndex]` beyond the end panics.  The result is the
headers and the index of the empty line that ended the loop. -/
def headerLoop (n : Nat) : List Str → Nat → headers → Except Panic (headers × Nat)
  | [], headerIndex, _ => .error (.indexOutOfRange headerIndex n)
  | header :: rest, headerIndex, hs =>
      if header = [] then .ok (hs, headerIndex)
      else
        match parseHeader hs header with
        | .error e => .error e
        | .ok hs1 => headerLoop n rest (headerIndex + 1) hs1

/-- The function `httpReqParser`. -/
def httpReqParser (req : Str) : Except Panic httpRequest :=
  let lines := Split req (bytes "\r\n")
  match index lines 0 with
  | .error e => .error e
  | .ok line0 =>
    let methodline := Split line0 (bytes " ")
    match index methodline 0 with
    | .error e => .error e
    | .ok m0 =>
      match index methodline 1 with
      | .error e => .error e
      | .ok m1 =>
        match index methodline 2 with
        | .error e => .error e
        | .ok m2 =>
          match headerLoop lines.length (lines.drop 1) 1 headers.zero with
          | .error e => .error e
          | .ok (hs, headerIndex) =>
            match index lines (headerIndex + 1) with
            | .error e => .error e
            | .ok body =>
              .ok { requestLine := { method := { methodType := m0, methodUrl := m1 },
                                     httpVersion := m2 },
                    headers := hs,
                    requestBody := { body := body } }

/-! ## Negotiation and serialization (lines 206-270) -/

/-- The function `httpResponseBuilder`. -/
def httpResponseBuilder (body contentType status encoding : Str) : httpResponse :=
  if encoding ≠ [] then
    { statusLine := { status := status }, responseBody := { body := body },
      headers := { headers.zero with contentType := contentType,
                                     contentLength := (body.length : Int),
                                     contentEncoding := encoding } }
  else
    { statusLine := { status := status }, responseBody := { body := body },
      headers := { headers.zero with contentType := contentType,
                                     contentLength := (body.length : Int) } }

/-- The function `encodingChecker`: the loop appends every element of the split that
equals `gzip` to the result. -/
def encodingChecker (encoding : Str) : Str :=
  (Split encoding (bytes ",")).foldl
    (fun acceptEncoding encode =>
      if encode = bytes "gzip" then acceptEncoding ++ encode else acceptEncoding) []

/-- The function `httpResponseParser`, which serializes a response. -/
def httpResponseParser (gzipCompression : Str → Str) (res : httpResponse) : Str :=
  if res.statusLine.status ≠ bytes "HTTP/1.1 200 OK" then
    bytes "HTTP/1.1 404 Not Found\r\n\r\n"
  else if res.headers.contentEncoding ≠ [] then
    let compressedBody := gzipCompression res.responseBody.body
    res.statusLine.status ++ bytes "\r\n" ++ bytes "Content-Encoding: " ++
      res.headers.contentEncoding ++ bytes "\r\n" ++ bytes "Content-Type: " ++
      res.headers.contentType ++ bytes "\r\n" ++ bytes "Content-Length: " ++
      Itoa (compressedBody.length : Int) ++ bytes "\r\n" ++ bytes "\r\n" ++ compressedBody
  else
    res.statusLine.status ++ bytes "\r\n" ++ bytes "Content-Type: " ++
      res.headers.contentType ++ bytes "\r\n" ++ bytes "Content-Length: " ++
      Itoa res.headers.contentLength ++ bytes "\r\n" ++ bytes "\r\n" ++ res.responseBody.body

/-! ## The handlers and the dispatcher (lines 137-204) -/

/-- The function `echo`. -/
def echo (gzipCompression : Str → Str) (req : httpRequest) : Except Panic Str :=
  match index (Split req.requestLine.method.methodUrl (bytes "/")) 2 with
  | .error e => .error e
  | .ok echo =>
    let encoding := encodingChecker req.headers.acceptEncoding
    .ok (httpResponseParser gzipCompression
      (httpResponseBuilder echo (bytes "text/plain") (bytes "HTTP/1.1 200 OK") encoding))

/-- The function `userAgent`. -/
def userAgent (gzipCompression : Str → Str) (req : httpRequest) : Str :=
  httpResponseParser gzipCompression
    (httpResponseBuilder req.headers.userAgent (bytes "text/plain") (bytes "HTTP/1.1 200 OK")
      (encodingChecker req.headers.acceptEncoding))

/-- The function `getFile`. -/
def getFile (directoryPath : Str) (gzipCompression : Str → Str) (req : httpRequest)
    (fs : FS) : Except Panic Str :=
  match index (Split req.requestLine.method.methodUrl (bytes "/")) 2 with
  | .error e => .error e
  | .ok fileName =>
    let filePath := directoryPath ++ fileName
    match osReadFile fs filePath with
    | none =>
      .ok (httpResponseParser gzipCompression
        (httpResponseBuilder [] (bytes "application/octet-stream")
          (bytes "HTTP/1.1 404 Not Found") (encodingChecker req.headers.acceptEncoding)))
    | some dat =>
      .ok (httpResponseParser gzipCompression
        (httpResponseBuilder dat (bytes "application/octet-stream")
          (bytes "HTTP/1.1 200 OK") (encodingChecker req.headers.acceptEncoding)))

/-- The function `postFile`: the response and the file system after the call. -/
def postFile (directoryPath : Str) (req : httpRequest) (fs : FS) : Except Panic (Str × FS) :=
  match index (Split req.requestLine.method.methodUrl (bytes "/")) 2 with
  | .error e => .error e
  | .ok fileName =>
    let content := req.requestBody.body
    let contentLength := req.headers.contentLength
    let filePath := directoryPath ++ fileName
    match make contentLength with
    | .error e => .error e
    | .ok zeros =>
      let toWrite := copy zeros content
      let written := osWriteFile fs filePath toWrite
      if written.1 = false then .ok ([], written.2)
      else .ok (bytes "HTTP/1.1 201 Created\r\n\r\n", written.2)

/-- The function `endpointMapper`: the response and the file system after the call. -/
def endpointMapper (directoryPath : Str) (gzipCompression : Str → Str) (req : httpRequest)
    (fs : FS) : Except Panic (Str × FS) :=
  let endpoint := req.requestLine.method.methodUrl
  let endpointSplit := Split endpoint (bytes "/")
  if req.requestLine.method.methodType = bytes "GET" then
    match index endpointSplit 1 with
    | .error e => .error e
    | .ok seg =>
      if seg = [] then .ok (bytes "HTTP/1.1 200 OK\r\n\r\n", fs)
      else if seg = bytes "echo" then
        match echo gzipCompression req with
        | .error e => .error e
        | .ok response => .ok (response, fs)
      else if seg = bytes "user-agent" then .ok (userAgent gzipCompression req, fs)
      else if seg = bytes "files" then
        match getFile directoryPath gzipCompression req fs with
        | .error e => .error e
        | .ok response => .ok (response, fs)
      else .ok (bytes "HTTP/1.1 404 Not Found\r\n\r\n", fs)
  else
    match index endpointSplit 1 with
    | .error e => .error e
    | .ok seg =>
      if seg = bytes "files" then postFile directoryPath req fs
      else .ok (bytes "HTTP/1.1 404 Not Found\r\n\r\n", fs)

/-- The parse-then-dispatch pipeline of `handleConnection` (lines 88-89). -/
def handle (directoryPath : Str) (gzipCompression : Str → Str) (raw : Str) (fs : FS) :
    Except Panic (Str × FS) :=
  match httpReqParser raw with
  | .error e => .error e
  | .ok req => endpointMapper directoryPath gzipCompression req fs

/-! ## Notions used to state the properties -/

/-- The lines of the header section of a response: the status line and the header
lines, that is the CRLF-delimited lines before the first empty line. -/
def headerSection (response : Str) : List Str :=
  (Split response (bytes "\r\n")).takeWhile (fun l => l ≠ [])

/-- The response carries the given header line. -/
def carriesHeaderLine (response line : Str) : Prop := line ∈ headerSection response

/-- The header section of the response has no `Content-Encoding` header. -/
def noContentEncoding (response : Str) : Prop :=
  ∀ l ∈ headerSection response, ¬ bytes "Content-Encoding:" <+: l

instance (response line : Str) : Decidable (carriesHeaderLine response line) := by
  unfold carriesHeaderLine
  infer_instance

instance (response : Str) : Decidable (noContentEncoding response) := by
  unfold noContentEncoding
  infer_instance

/-- The name of a header line: the text before its first space. -/
def firstToken (l : Str) : Str := l.takeWhile (fun c => c ≠ 32)

/-- The value of a header line as sent on the wire: the text after its first space. -/
def afterFirstSpace (l : Str) : Str := (l.dropWhile (fun c => c ≠ 32)).drop 1

/-- The header lines of a raw request: the CRLF-delimited lines after the request line
and before the first empty line. -/
def requestHeaderLines (raw : Str) : List Str :=
  ((Split raw (bytes "\r\n")).drop 1).takeWhile (fun l => l ≠ [])

/-- The Accept-Encoding value of a raw request as sent on the wire, `none` when the
header is absent.  A header line is an Accept-Encoding header when its name is
`Accept-Encoding:`; of several, the last one counts. -/
def wireAcceptEncoding (raw : Str) : Option Str :=
  (((requestHeaderLines raw).filter
      (fun l => firstToken l = bytes "Accept-Encoding:")).getLast?).map afterFirstSpace

/-- Space or horizontal tab. -/
def isBlank (c : UInt8) : Bool := c = 32 || c = 9

/-- A string without its leading and trailing blanks. -/
def trim (s : Str) : Str := ((s.dropWhile isBlank).reverse.dropWhile isBlank).reverse

/-- The comma-separated tokens of a header value, surrounding whitespace trimmed. -/
def trimmedTokens (v : Str) : List Str := (Split v (bytes ",")).map trim

/-- The comma-separated tokens of a header value once all its spaces are removed. -/
def strippedTokens (v : Str) : List Str := Split (v.filter (fun c => c ≠ 32)) (bytes ",")

/-- The request is one that the dispatcher answers through the response builder with
status 200: a GET of `/echo/{s}`, of `/user-agent`, or of `/files/{name}` where the
file can be read. -/
def answeredWithBody (directoryPath : Str) (req : httpRequest) (fs : FS) : Prop :=
  req.requestLine.method.methodType = bytes "GET" ∧
  ∃ seg, index (Split req.requestLine.method.methodUrl (bytes "/")) 1 = .ok seg ∧
    ((seg = bytes "echo" ∧
        ∃ s, index (Split req.requestLine.method.methodUrl (bytes "/")) 2 = .ok s) ∨
     seg = bytes "user-agent" ∨
     (seg = bytes "files" ∧
        ∃ name dat, index (Split req.requestLine.method.methodUrl (bytes "/")) 2 = .ok name ∧
          osReadFile fs (directoryPath ++ name) = some dat))

/-- The value token of a header line: the text between its first space and the next
space (or the end of the line). -/
def secondToken (l : Str) : Str := firstToken (afterFirstSpace l)

/-- The effect of one header line on the headers, stated on the text of the line: the
name is the text before the first space; `Host:`, `User-Agent:` and `Accept:` store the
value token, `Content-Length:` stores the integer `Atoi` reads from the value token (and
nothing when `Atoi` fails), `Accept-Encoding:` stores the text after the first space
with its spaces removed; any other name changes nothing. -/
def headerStep (hs : headers) (l : Str) : headers :=
  if firstToken l = bytes "Host:" then { hs with host := secondToken l }
  else if firstToken l = bytes "User-Agent:" then { hs with userAgent := secondToken l }
  else if firstToken l = bytes "Accept:" then { hs with accept := secondToken l }
  else if firstToken l = bytes "Content-Length:" then
    match Atoi (secondToken l) with
    | none => hs
    | some contentLength => { hs with contentLength := contentLength }
  else if firstToken l = bytes "Accept-Encoding:" then
    { hs with acceptEncoding := (afterFirstSpace l).filter (fun c => c ≠ 32) }
  else hs

/-- The value of the header `name` of a raw request as sent on the wire: the text after
the first space of the last header line whose name is `name`; `none` when there is no
such line. -/
def wireHeaderValue (name raw : Str) : Option Str :=
  (((requestHeaderLines raw).filter (fun l => firstToken l = name)).getLast?).map
    afterFirstSpace

/-! ## Facts about the library functions -/

theorem splitAux_ne_nil (sep : Str) : ∀ (s : Str) (k : Nat), splitAux sep k s ≠ []
  | [], k => by cases k <;> simp [splitAux]
  | c :: cs, k + 1 => by
      simpa [splitAux] using splitAux_ne_nil sep cs k
  | c :: cs, 0 => by
      have ih := splitAux_ne_nil sep cs 0
      unfold splitAux
      split
      · simp
      · split
        · simp
        · simp

theorem Split_ne_nil (s sep : Str) : Split s sep ≠ [] := splitAux_ne_nil sep s 0

theorem Split_nil (sep : Str) : Split [] sep = [[]] := by simp [Split, splitAux]

/-- Splitting on a one-byte separator, when the input starts with the separator. -/
theorem Split_cons_sep (c : UInt8) (cs : Str) : Split (c :: cs) [c] = [] :: Split cs [c] := by
  simp [Split, splitAux]

/-- Splitting on a one-byte separator, when the input starts with another byte. -/
theorem Split_cons_other (c x : UInt8) (cs : Str) (h : x ≠ c) :
    Split (x :: cs) [c] =
      match Split cs [c] with
      | [] => [[x]]
      | l :: ls => (x :: l) :: ls := by
  simp [Split, splitAux, Ne.symm h]

/-- A one-byte separator that does not occur leaves the input in one piece. -/
theorem Split_of_not_mem (c : UInt8) : ∀ (s : Str), c ∉ s → Split s [c] = [s]
  | [], _ => Split_nil _
  | x :: xs, h => by
      have hx : x ≠ c := fun e => h (by simp [e])
      have hxs : c ∉ xs := fun m => h (List.mem_cons_of_mem _ m)
      rw [Split_cons_other c x xs hx, Split_of_not_mem c xs hxs]

/-- The first piece of a split on a one-byte separator ends at its first occurrence. -/
theorem Split_append_sep (c : UInt8) : ∀ (a b : Str), c ∉ a →
    Split (a ++ c :: b) [c] = a :: Split b [c]
  | [], b, _ => Split_cons_sep c b
  | x :: xs, b, h => by
      have hx : x ≠ c := fun e => h (by simp [e])
      have hxs : c ∉ xs := fun m => h (List.mem_cons_of_mem _ m)
      rw [List.cons_append, Split_cons_other c x _ hx, Split_append_sep c xs b hxs]


/-! ## Facts about negotiation and serialization -/

theorem bytes_slash : bytes "/" = [47] := rfl
theorem bytes_comma : bytes "," = [44] := rfl
theorem bytes_space : bytes " " = [32] := rfl

theorem index_zero {α : Type} (x : α) (xs : List α) : index (x :: xs) 0 = .ok x := rfl
theorem index_one {α : Type} (x y : α) (xs : List α) : index (x :: y :: xs) 1 = .ok y := rfl
theorem index_two {α : Type} (x y z : α) (xs : List α) :
    index (x :: y :: z :: xs) 2 = .ok z := rfl

/-- The loop of `encodingChecker` appends one `gzip` per element equal to `gzip`. -/
theorem encodingChecker_foldl (l : List Str) : ∀ (init : Str),
    l.foldl (fun acceptEncoding encode =>
      if encode = bytes "gzip" then acceptEncoding ++ encode else acceptEncoding) init
      = init ++ (List.replicate (l.count (bytes "gzip")) (bytes "gzip")).flatten := by
  induction l with
  | nil => intro init; simp
  | cons x xs ih =>
      intro init
      rw [List.foldl_cons, ih]
      by_cases hx : x = bytes "gzip"
      · subst hx
        simp [List.replicate_succ, List.append_assoc]
      · have : List.count (bytes "gzip") (x :: xs) = List.count (bytes "gzip") xs := by
          rw [List.count_cons]; simp [hx]
        rw [this]; simp [hx]

theorem encodingChecker_eq (encoding : Str) :
    encodingChecker encoding =
      (List.replicate ((Split encoding (bytes ",")).count (bytes "gzip")) (bytes "gzip")).flatten := by
  unfold encodingChecker
  rw [encodingChecker_foldl]; simp

/-- No element equal to `gzip`: nothing is chosen. -/
theorem encodingChecker_of_not_mem (encoding : Str)
    (h : bytes "gzip" ∉ Split encoding (bytes ",")) : encodingChecker encoding = [] := by
  rw [encodingChecker_eq, List.count_eq_zero.mpr h]; rfl

/-- Exactly one element equal to `gzip`: `gzip` is chosen. -/
theorem encodingChecker_of_count_one (encoding : Str)
    (h : (Split encoding (bytes ",")).count (bytes "gzip") = 1) :
    encodingChecker encoding = bytes "gzip" := by
  rw [encodingChecker_eq, h]; rfl

/-- Serialization of a 200 response built without an encoding. -/
theorem httpResponseParser_plain (gz : Str → Str) (body ct : Str) :
    httpResponseParser gz (httpResponseBuilder body ct (bytes "HTTP/1.1 200 OK") [])
      = bytes "HTTP/1.1 200 OK\r\nContent-Type: " ++ ct ++ bytes "\r\nContent-Length: "
          ++ Itoa (body.length : Int) ++ bytes "\r\n\r\n" ++ body := by
  simp only [httpResponseParser, httpResponseBuilder, headers.zero, ne_eq, not_true_eq_false,
    if_false, List.append_assoc]
  rfl

/-- Serialization of a 200 response built with an encoding. -/
theorem httpResponseParser_encoded (gz : Str → Str) (body ct e : Str) (he : e ≠ []) :
    httpResponseParser gz (httpResponseBuilder body ct (bytes "HTTP/1.1 200 OK") e)
      = bytes "HTTP/1.1 200 OK\r\nContent-Encoding: " ++ e ++ bytes "\r\nContent-Type: " ++ ct
          ++ bytes "\r\nContent-Length: " ++ Itoa ((gz body).length : Int) ++ bytes "\r\n\r\n"
          ++ gz body := by
  simp only [httpResponseParser, httpResponseBuilder, headers.zero, ne_eq, he, not_false_eq_true,
    if_true, not_true_eq_false, if_false, List.append_assoc]
  rfl

/-- The segments of a path of the form `/a/s` where `a` and `s` have no slash. -/
theorem Split_path_two (a s : Str) (ha : (47 : UInt8) ∉ a) (hs : (47 : UInt8) ∉ s) :
    Split (47 :: (a ++ 47 :: s)) (bytes "/") = [[], a, s] := by
  rw [bytes_slash, Split_cons_sep, Split_append_sep 47 a s ha, Split_of_not_mem 47 s hs]

/-! ## C1: echo without compression -/

/-- C1. For every string `s` without a slash and every request with method GET, path
`/echo/` followed by `s`, and an Accept-Encoding value none of whose comma-separated
tokens is `gzip`, `endpointMapper` returns exactly the status line 200, the header
`Content-Type: text/plain`, the header `Content-Length` with the decimal length of `s`,
a blank line and the body `s`; the file system is not touched. -/
theorem C1_echo_plain (directoryPath : Str) (gz : Str → Str) (fs : FS) (s : Str)
    (req : httpRequest)
    (hs : (47 : UInt8) ∉ s)
    (hm : req.requestLine.method.methodType = bytes "GET")
    (hp : req.requestLine.method.methodUrl = bytes "/echo/" ++ s)
    (hae : bytes "gzip" ∉ Split req.headers.acceptEncoding (bytes ",")) :
    endpointMapper directoryPath gz req fs =
      .ok (bytes "HTTP/1.1 200 OK\r\nContent-Type: text/plain\r\nContent-Length: "
            ++ Itoa (s.length : Int) ++ bytes "\r\n\r\n" ++ s, fs) := by
  have hsplit : Split req.requestLine.method.methodUrl (bytes "/") = [[], bytes "echo", s] := by
    rw [hp]
    exact Split_path_two (bytes "echo") s (by decide) hs
  have hecho : bytes "echo" ≠ [] := by decide
  simp only [endpointMapper, echo, hm, hsplit, index_one, index_two, if_true, hecho, if_false,
    encodingChecker_of_not_mem _ hae, httpResponseParser_plain, List.append_assoc]
  rfl

/-- C1 at `GET /echo/abc` with `Accept-Encoding: deflate`. -/
theorem C1_echo_plain_witness :
    endpointMapper (bytes "/tmp/") (fun b => b)
      { requestLine := { method := { methodType := bytes "GET", methodUrl := bytes "/echo/abc" },
                         httpVersion := bytes "HTTP/1.1" },
        requestBody := { body := [] },
        headers := { headers.zero with acceptEncoding := bytes "deflate" } }
      ⟨fun _ => none, fun _ => true, []⟩
    = .ok (bytes "HTTP/1.1 200 OK\r\nContent-Type: text/plain\r\nContent-Length: "
            ++ Itoa ((bytes "abc").length : Int) ++ bytes "\r\n\r\n" ++ bytes "abc",
           ⟨fun _ => none, fun _ => true, []⟩) :=
  C1_echo_plain (bytes "/tmp/") (fun b => b) ⟨fun _ => none, fun _ => true, []⟩ (bytes "abc") _
    (by decide) rfl rfl (by decide)


/-! ## Facts about lines -/

theorem bytes_crlf : bytes "\r\n" = [13, 10] := rfl

theorem Split_crlf_crlf (rest : Str) :
    Split (13 :: 10 :: rest) (bytes "\r\n") = [] :: Split rest (bytes "\r\n") := by
  simp [Split, splitAux, bytes_crlf]

theorem Split_crlf_cons (x : UInt8) (rest : Str) (hx : x ≠ 13) :
    Split (x :: rest) (bytes "\r\n") =
      match Split rest (bytes "\r\n") with
      | [] => [[x]]
      | l :: ls => (x :: l) :: ls := by
  simp [Split, splitAux, bytes_crlf, Ne.symm hx]

/-- A line without a carriage return, followed by CRLF, is the first piece. -/
theorem Split_crlf_append : ∀ (a rest : Str), (13 : UInt8) ∉ a →
    Split (a ++ 13 :: 10 :: rest) (bytes "\r\n") = a :: Split rest (bytes "\r\n")
  | [], rest, _ => Split_crlf_crlf rest
  | x :: xs, rest, h => by
      have hx : x ≠ 13 := fun e => h (by simp [e])
      have hxs : (13 : UInt8) ∉ xs := fun m => h (List.mem_cons_of_mem _ m)
      rw [List.cons_append, Split_crlf_cons x _ hx, Split_crlf_append xs rest hxs]

theorem toDigitsCore_no_cr : ∀ (fuel n : Nat) (ds : List Char),
    (∀ c ∈ ds, c.toNat.toUInt8 ≠ 13) →
    ∀ c ∈ Nat.toDigitsCore 10 fuel n ds, c.toNat.toUInt8 ≠ 13
  | 0, _, ds, h => by simpa [Nat.toDigitsCore] using h
  | fuel + 1, n, ds, h => by
      have hd : (Nat.digitChar (n % 10)).toNat.toUInt8 ≠ 13 := by
        have hlt : n % 10 < 10 := Nat.mod_lt _ (by decide)
        have key : ∀ d : Fin 10, (Nat.digitChar d.val).toNat.toUInt8 ≠ 13 := by decide
        exact key ⟨n % 10, hlt⟩
      have hds : ∀ c ∈ Nat.digitChar (n % 10) :: ds, c.toNat.toUInt8 ≠ 13 := by
        intro c hc
        rcases List.mem_cons.mp hc with rfl | hc
        · exact hd
        · exact h c hc
      unfold Nat.toDigitsCore
      simp only
      split
      · exact hds
      · exact toDigitsCore_no_cr fuel (n / 10) _ hds

/-- The decimal digits of a length contain no carriage return. -/
theorem Itoa_no_cr (n : Nat) : (13 : UInt8) ∉ Itoa (n : Int) := by
  intro h
  have h1 : (13 : UInt8) ∈ natDigits n := h
  unfold natDigits at h1
  rcases List.mem_map.mp h1 with ⟨c, hc, hc13⟩
  exact toDigitsCore_no_cr (n + 1) n [] (by simp) c hc hc13

/-- The header section of a response with three lines before the blank line. -/
theorem headerSection_three (a b c body : Str) (ha : (13 : UInt8) ∉ a) (hb : (13 : UInt8) ∉ b)
    (hc : (13 : UInt8) ∉ c) (ha0 : a ≠ []) (hb0 : b ≠ []) (hc0 : c ≠ []) :
    headerSection (a ++ 13 :: 10 :: (b ++ 13 :: 10 :: (c ++ 13 :: 10 :: 13 :: 10 :: body)))
      = [a, b, c] := by
  unfold headerSection
  rw [Split_crlf_append a _ ha, Split_crlf_append b _ hb, Split_crlf_append c _ hc,
    Split_crlf_crlf]
  simp [List.takeWhile, ha0, hb0, hc0]

/-- The header section of a response with four lines before the blank line. -/
theorem headerSection_four (a b c d body : Str) (ha : (13 : UInt8) ∉ a) (hb : (13 : UInt8) ∉ b)
    (hc : (13 : UInt8) ∉ c) (hd : (13 : UInt8) ∉ d)
    (ha0 : a ≠ []) (hb0 : b ≠ []) (hc0 : c ≠ []) (hd0 : d ≠ []) :
    headerSection (a ++ 13 :: 10 :: (b ++ 13 :: 10 :: (c ++ 13 :: 10 ::
        (d ++ 13 :: 10 :: 13 :: 10 :: body))))
      = [a, b, c, d] := by
  unfold headerSection
  rw [Split_crlf_append a _ ha, Split_crlf_append b _ hb, Split_crlf_append c _ hc,
    Split_crlf_append d _ hd, Split_crlf_crlf]
  simp [List.takeWhile, ha0, hb0, hc0, hd0]

/-! ## Facts about the wire parser -/

theorem Join_cons_nil (a : Str) (ls : List Str) : Join (a :: ls) [] = a ++ Join ls [] := by
  cases ls <;> simp [Join]

/-- Splitting on a byte and joining with nothing removes that byte. -/
theorem Join_Split_nil (c : UInt8) : ∀ (s : Str),
    Join (Split s [c]) [] = s.filter (fun x => x ≠ c)
  | [] => by simp [Split_nil, Join]
  | x :: xs => by
      have ih := Join_Split_nil c xs
      by_cases h : x = c
      · subst h
        rw [Split_cons_sep, Join_cons_nil, ih]
        simp
      · rw [Split_cons_other c x xs h]
        cases hsp : Split xs [c] with
        | nil => exact absurd hsp (Split_ne_nil _ _)
        | cons l ls =>
            rw [hsp, Join_cons_nil] at ih
            simp only [Join_cons_nil, List.cons_append]
            rw [ih]
            simp [h]

/-- The first piece of a split on a byte is the text before the first occurrence; the
other pieces, joined with nothing, are the text after it without that byte. -/
theorem Split_head_tail (c : UInt8) : ∀ (l : Str), ∃ rest,
    Split l [c] = l.takeWhile (fun x => x ≠ c) :: rest ∧
    Join rest [] = ((l.dropWhile (fun x => x ≠ c)).drop 1).filter (fun x => x ≠ c)
  | [] => ⟨[], by simp [Split_nil], by simp [Join]⟩
  | x :: xs => by
      by_cases h : x = c
      · subst h
        refine ⟨Split xs [x], ?_, ?_⟩
        · rw [Split_cons_sep]; simp
        · rw [Join_Split_nil]; simp
      · obtain ⟨rest, hsp, hj⟩ := Split_head_tail c xs
        refine ⟨rest, ?_, ?_⟩
        · rw [Split_cons_other c x xs h, hsp]; simp [h]
        · rw [hj]; simp [h]

/-- What `httpReqParser` computed when it returned a request. -/
theorem httpReqParser_inv (raw : Str) (req : httpRequest) (h : httpReqParser raw = .ok req) :
    ∃ line0 m0 m1 m2 hs headerIndex body,
      index (Split raw (bytes "\r\n")) 0 = .ok line0 ∧
      index (Split line0 (bytes " ")) 0 = .ok m0 ∧
      index (Split line0 (bytes " ")) 1 = .ok m1 ∧
      index (Split line0 (bytes " ")) 2 = .ok m2 ∧
      headerLoop (Split raw (bytes "\r\n")).length ((Split raw (bytes "\r\n")).drop 1) 1
        headers.zero = .ok (hs, headerIndex) ∧
      index (Split raw (bytes "\r\n")) (headerIndex + 1) = .ok body ∧
      req = { requestLine := { method := { methodType := m0, methodUrl := m1 },
                               httpVersion := m2 },
              headers := hs, requestBody := { body := body } } := by
  unfold httpReqParser at h
  simp only at h
  split at h
  · cases h
  · rename_i line0 h0
    split at h
    · cases h
    · rename_i m0 hm0
      split at h
      · cases h
      · rename_i m1 hm1
        split at h
        · cases h
        · rename_i m2 hm2
          split at h
          · cases h
          · rename_i hs headerIndex hl
            split at h
            · cases h
            · rename_i body hb
              injection h with h
              exact ⟨line0, m0, m1, m2, hs, headerIndex, body, h0, hm0, hm1, hm2, hl, hb, h.symm⟩

/-- The Accept-Encoding field after one header line. -/
theorem parseHeader_acceptEncoding (hs hs1 : headers) (l : Str)
    (h : parseHeader hs l = .ok hs1) :
    hs1.acceptEncoding =
      if firstToken l = bytes "Accept-Encoding:" then
        (afterFirstSpace l).filter (fun c => c ≠ 32)
      else hs.acceptEncoding := by
  obtain ⟨rest, hsp, hj⟩ := Split_head_tail 32 l
  unfold parseHeader at h
  rw [bytes_space, hsp] at h
  simp only [index_zero, List.drop_succ_cons, List.drop_zero] at h
  change _ = if l.takeWhile (fun x => x ≠ 32) = bytes "Accept-Encoding:" then
    ((l.dropWhile (fun x => x ≠ 32)).drop 1).filter (fun x => x ≠ 32) else hs.acceptEncoding
  generalize l.takeWhile (fun x => x ≠ 32) = name at h ⊢
  split_ifs at h with h1 h2 h3 h4 h5
  · subst h1
    rw [if_neg (by decide)]
    split at h
    · cases h
    · injection h with h; subst h; rfl
  · subst h2
    rw [if_neg (by decide)]
    split at h
    · cases h
    · injection h with h; subst h; rfl
  · subst h3
    rw [if_neg (by decide)]
    split at h
    · cases h
    · injection h with h; subst h; rfl
  · subst h4
    rw [if_neg (by decide)]
    split at h
    · cases h
    · split at h
      · injection h with h; subst h; rfl
      · injection h with h; subst h; rfl
  · rw [if_pos h5]
    injection h with h; subst h
    exact hj
  · rw [if_neg h5]
    injection h with h; subst h; rfl

/-- The Accept-Encoding field after the header loop: the value of the last
Accept-Encoding line read, spaces removed, or the field as it was. -/
theorem headerLoop_acceptEncoding (n : Nat) : ∀ (ls : List Str) (i : Nat) (hs hs1 : headers)
    (j : Nat), headerLoop n ls i hs = .ok (hs1, j) →
    hs1.acceptEncoding =
      (((((ls.takeWhile (fun l => l ≠ [])).filter
          (fun l => firstToken l = bytes "Accept-Encoding:")).getLast?).map
          (fun l => (afterFirstSpace l).filter (fun c => c ≠ 32)))).getD hs.acceptEncoding
  | [], i, hs, hs1, j, h => by simp [headerLoop] at h
  | header :: rest, i, hs, hs1, j, h => by
      unfold headerLoop at h
      by_cases he : header = []
      · rw [if_pos he] at h
        injection h with h
        injection h with h1 h2
        subst h1
        simp [List.takeWhile, he]
      · rw [if_neg he] at h
        split at h
        · cases h
        · rename_i hs2 hp
          have ih := headerLoop_acceptEncoding n rest (i + 1) hs2 hs1 j h
          have hp2 := parseHeader_acceptEncoding hs hs2 header hp
          rw [ih, hp2]
          have htw : (header :: rest).takeWhile (fun l => l ≠ []) =
              header :: rest.takeWhile (fun l => l ≠ []) := by
            simp [List.takeWhile, he]
          rw [htw]
          by_cases hae : firstToken header = bytes "Accept-Encoding:"
          · rw [if_pos hae, List.filter_cons_of_pos (by simpa using hae)]
            cases hF : (rest.takeWhile (fun l => l ≠ [])).filter
                (fun l => firstToken l = bytes "Accept-Encoding:") with
            | nil => simp
            | cons y ys =>
                obtain ⟨z, hz⟩ : ∃ z, (y :: ys).getLast? = some z :=
                  ⟨_, List.getLast?_eq_getLast _ (by simp)⟩
                rw [List.getLast?_cons_cons, hz]
                simp
          · rw [if_neg hae, List.filter_cons_of_neg (by simpa using hae)]

/-- The Accept-Encoding field of a parsed request: the value sent on the wire with its
spaces removed, empty when the header is absent. -/
theorem httpReqParser_acceptEncoding (raw : Str) (req : httpRequest)
    (h : httpReqParser raw = .ok req) :
    req.headers.acceptEncoding =
      ((wireAcceptEncoding raw).map (fun v => v.filter (fun c => c ≠ 32))).getD [] := by
  obtain ⟨line0, m0, m1, m2, hs, headerIndex, body, -, -, -, -, hl, -, hreq⟩ :=
    httpReqParser_inv raw req h
  subst hreq
  have := headerLoop_acceptEncoding _ _ _ _ _ _ hl
  simp only [this, wireAcceptEncoding, requestHeaderLines, Option.map_map]
  rfl

/-! ## Facts about the responses -/

theorem plain_shape (ct digits body : Str) :
    bytes "HTTP/1.1 200 OK\r\nContent-Type: " ++ ct ++ bytes "\r\nContent-Length: "
        ++ digits ++ bytes "\r\n\r\n" ++ body
      = bytes "HTTP/1.1 200 OK" ++ 13 :: 10 :: ((bytes "Content-Type: " ++ ct) ++ 13 :: 10 ::
          ((bytes "Content-Length: " ++ digits) ++ 13 :: 10 :: 13 :: 10 :: body)) := by
  simp only [List.append_assoc]
  rfl

theorem encoded_shape (e ct digits body : Str) :
    bytes "HTTP/1.1 200 OK\r\nContent-Encoding: " ++ e ++ bytes "\r\nContent-Type: " ++ ct
        ++ bytes "\r\nContent-Length: " ++ digits ++ bytes "\r\n\r\n" ++ body
      = bytes "HTTP/1.1 200 OK" ++ 13 :: 10 :: ((bytes "Content-Encoding: " ++ e) ++ 13 :: 10 ::
          ((bytes "Content-Type: " ++ ct) ++ 13 :: 10 ::
          ((bytes "Content-Length: " ++ digits) ++ 13 :: 10 :: 13 :: 10 :: body))) := by
  simp only [List.append_assoc]
  rfl

theorem httpResponseBuilder_status (body ct status e : Str) :
    (httpResponseBuilder body ct status e).statusLine.status = status := by
  unfold httpResponseBuilder
  split <;> rfl

/-- A response whose status is not the 200 status line serializes to the bare 404. -/
theorem httpResponseParser_of_ne (gz : Str → Str) (res : httpResponse)
    (h : res.statusLine.status ≠ bytes "HTTP/1.1 200 OK") :
    httpResponseParser gz res = bytes "HTTP/1.1 404 Not Found\r\n\r\n" := by
  unfold httpResponseParser
  rw [if_pos h]

theorem httpResponseParser_notFound (gz : Str → Str) (body ct e : Str) :
    httpResponseParser gz (httpResponseBuilder body ct (bytes "HTTP/1.1 404 Not Found") e)
      = bytes "HTTP/1.1 404 Not Found\r\n\r\n" := by
  apply httpResponseParser_of_ne
  rw [httpResponseBuilder_status]
  decide

/-- The header section of a 200 response serialized without an encoding. -/
theorem headerSection_plain (ct body : Str) (n : Nat) (hct : (13 : UInt8) ∉ ct) :
    headerSection (bytes "HTTP/1.1 200 OK\r\nContent-Type: " ++ ct
        ++ bytes "\r\nContent-Length: " ++ Itoa (n : Int) ++ bytes "\r\n\r\n" ++ body)
      = [bytes "HTTP/1.1 200 OK", bytes "Content-Type: " ++ ct,
         bytes "Content-Length: " ++ Itoa (n : Int)] := by
  rw [plain_shape]
  apply headerSection_three
  · decide
  · intro h
    rcases List.mem_append.mp h with h | h
    · revert h; decide
    · exact hct h
  · intro h
    rcases List.mem_append.mp h with h | h
    · revert h; decide
    · exact Itoa_no_cr n h
  · decide
  · exact List.append_ne_nil_of_left_ne_nil (by decide) _
  · exact List.append_ne_nil_of_left_ne_nil (by decide) _

/-- The header section of a 200 response serialized with an encoding. -/
theorem headerSection_encoded (e ct body : Str) (n : Nat) (he : (13 : UInt8) ∉ e)
    (hct : (13 : UInt8) ∉ ct) :
    headerSection (bytes "HTTP/1.1 200 OK\r\nContent-Encoding: " ++ e
        ++ bytes "\r\nContent-Type: " ++ ct
        ++ bytes "\r\nContent-Length: " ++ Itoa (n : Int) ++ bytes "\r\n\r\n" ++ body)
      = [bytes "HTTP/1.1 200 OK", bytes "Content-Encoding: " ++ e, bytes "Content-Type: " ++ ct,
         bytes "Content-Length: " ++ Itoa (n : Int)] := by
  rw [encoded_shape]
  apply headerSection_four
  · decide
  · intro h
    rcases List.mem_append.mp h with h | h
    · revert h; decide
    · exact he h
  · intro h
    rcases List.mem_append.mp h with h | h
    · revert h; decide
    · exact hct h
  · intro h
    rcases List.mem_append.mp h with h | h
    · revert h; decide
    · exact Itoa_no_cr n h
  · decide
  · exact List.append_ne_nil_of_left_ne_nil (by decide) _
  · exact List.append_ne_nil_of_left_ne_nil (by decide) _
  · exact List.append_ne_nil_of_left_ne_nil (by decide) _

/-- A string is no prefix of another when they differ within the first `k` bytes. -/
theorem not_prefix_of_take (k : Nat) (p l : Str) (h : p.take k ≠ l.take k)
    (hk : k ≤ p.length) : ¬ p <+: l := by
  rintro ⟨t, rfl⟩
  exact h (by rw [List.take_append_of_le_length hk])

/-- The responses of the dispatcher.  When it returns, the response is one of the four
fixed strings, or a 200 response built from a body and one of the two content types
with the negotiated encoding. -/
theorem endpointMapper_cases (directoryPath : Str) (gz : Str → Str) (req : httpRequest)
    (fs : FS) (r : Str × FS) (h : endpointMapper directoryPath gz req fs = .ok r) :
    r.1 = bytes "HTTP/1.1 200 OK\r\n\r\n" ∨ r.1 = bytes "HTTP/1.1 404 Not Found\r\n\r\n" ∨
    r.1 = bytes "HTTP/1.1 201 Created\r\n\r\n" ∨ r.1 = [] ∨
    ∃ ct body, (ct = bytes "text/plain" ∨ ct = bytes "application/octet-stream") ∧
      r.1 = httpResponseParser gz (httpResponseBuilder body ct (bytes "HTTP/1.1 200 OK")
        (encodingChecker req.headers.acceptEncoding)) := by
  unfold endpointMapper at h
  simp only at h
  split_ifs at h with hm
  · split at h
    · cases h
    · rename_i seg hseg
      split_ifs at h with h1 h2 h3 h4
      · injection h with h; subst h; exact Or.inl rfl
      · unfold echo at h
        split at h
        · cases h
        · rename_i x hx
          split at hx
          · cases hx
          · injection hx with hx; subst hx
            injection h with h; subst h
            exact Or.inr (Or.inr (Or.inr (Or.inr ⟨_, _, Or.inl rfl, rfl⟩)))
      · injection h with h; subst h
        exact Or.inr (Or.inr (Or.inr (Or.inr ⟨_, _, Or.inl rfl, rfl⟩)))
      · unfold getFile at h
        split at h
        · cases h
        · rename_i x hx
          split at hx
          · cases hx
          · simp only at hx
            split at hx
            · injection hx with hx; subst hx
              injection h with h; subst h
              exact Or.inr (Or.inl (httpResponseParser_notFound _ _ _ _))
            · injection hx with hx; subst hx
              injection h with h; subst h
              exact Or.inr (Or.inr (Or.inr (Or.inr ⟨_, _, Or.inr rfl, rfl⟩)))
      · injection h with h; subst h; exact Or.inr (Or.inl rfl)
  · split at h
    · cases h
    · rename_i seg hseg
      split_ifs at h with h1
      · unfold postFile at h
        split at h
        · cases h
        · simp only at h
          split at h
          · cases h
          · split_ifs at h
            · injection h with h; subst h; exact Or.inr (Or.inr (Or.inr (Or.inl rfl)))
            · injection h with h; subst h; exact Or.inr (Or.inr (Or.inl rfl))
      · injection h with h; subst h; exact Or.inr (Or.inl rfl)

theorem handle_inv (directoryPath : Str) (gz : Str → Str) (raw : Str) (fs : FS) (r : Str × FS)
    (h : handle directoryPath gz raw fs = .ok r) :
    ∃ req, httpReqParser raw = .ok req ∧ endpointMapper directoryPath gz req fs = .ok r := by
  unfold handle at h
  split at h
  · cases h
  · rename_i req hreq
    exact ⟨req, hreq, h⟩

theorem handle_of_parse (directoryPath : Str) (gz : Str → Str) (raw : Str) (fs : FS)
    (req : httpRequest) (h : httpReqParser raw = .ok req) :
    handle directoryPath gz raw fs = endpointMapper directoryPath gz req fs := by
  unfold handle
  rw [h]

/-- A 200 response built with the encoding `gzip` carries `Content-Encoding: gzip`. -/
theorem carries_gzip (gz : Str → Str) (body ct : Str)
    (hct : ct = bytes "text/plain" ∨ ct = bytes "application/octet-stream") :
    carriesHeaderLine
      (httpResponseParser gz (httpResponseBuilder body ct (bytes "HTTP/1.1 200 OK") (bytes "gzip")))
      (bytes "Content-Encoding: gzip") := by
  have hct13 : (13 : UInt8) ∉ ct := by rcases hct with rfl | rfl <;> decide
  unfold carriesHeaderLine
  rw [httpResponseParser_encoded gz body ct (bytes "gzip") (by decide),
    headerSection_encoded (bytes "gzip") ct (gz body) (gz body).length (by decide) hct13]
  exact List.mem_cons_of_mem _ (List.mem_cons_self _ _)

/-- A 200 response built without an encoding has no `Content-Encoding` header. -/
theorem noContentEncoding_plain (gz : Str → Str) (body ct : Str)
    (hct : ct = bytes "text/plain" ∨ ct = bytes "application/octet-stream") :
    noContentEncoding
      (httpResponseParser gz (httpResponseBuilder body ct (bytes "HTTP/1.1 200 OK") [])) := by
  have hct13 : (13 : UInt8) ∉ ct := by rcases hct with rfl | rfl <;> decide
  unfold noContentEncoding
  rw [httpResponseParser_plain, headerSection_plain ct body body.length hct13]
  intro l hl
  simp only [List.mem_cons, List.mem_singleton, List.not_mem_nil, or_false] at hl
  rcases hl with rfl | rfl | rfl
  · decide
  · apply not_prefix_of_take 9
    · rw [List.take_append_of_le_length (by decide)]; decide
    · decide
  · apply not_prefix_of_take 9
    · rw [List.take_append_of_le_length (by decide)]; decide
    · decide

/-- The Accept-Encoding field of a request parsed from a raw request whose wire value
has no `gzip` token once spaces are removed selects no encoding. -/
theorem encodingChecker_of_wire (raw : Str) (req : httpRequest)
    (hparse : httpReqParser raw = .ok req)
    (hwire : ∀ v, wireAcceptEncoding raw = some v → bytes "gzip" ∉ strippedTokens v) :
    encodingChecker req.headers.acceptEncoding = [] := by
  apply encodingChecker_of_not_mem
  rw [httpReqParser_acceptEncoding raw req hparse]
  cases hw : wireAcceptEncoding raw with
  | none => decide
  | some v => exact hwire v hw

/-! ## C2: the `Content-Encoding` header when gzip is requested -/

/-- C2, as stated, fails: the raw request `GET /` with the header `Accept-Encoding: gzip`
is answered with the bare status line 200, which carries no `Content-Encoding: gzip`
header line. -/
theorem C2_counterexample :
    wireAcceptEncoding (bytes "GET / HTTP/1.1\r\nAccept-Encoding: gzip\r\n\r\n")
      = some (bytes "gzip") ∧
    bytes "gzip" ∈ trimmedTokens (bytes "gzip") ∧
    (∀ (directoryPath : Str) (gz : Str → Str) (fs : FS),
      handle directoryPath gz (bytes "GET / HTTP/1.1\r\nAccept-Encoding: gzip\r\n\r\n") fs
        = .ok (bytes "HTTP/1.1 200 OK\r\n\r\n", fs)) ∧
    ¬ carriesHeaderLine (bytes "HTTP/1.1 200 OK\r\n\r\n") (bytes "Content-Encoding: gzip") := by
  refine ⟨by decide, by decide, fun _ _ _ => rfl, ?_⟩
  unfold carriesHeaderLine
  decide

/-- C2, amended. For every raw request that `httpReqParser` parses into a GET of
`/echo/{s}`, of `/user-agent` or of `/files/{name}` with a readable file, and whose
Accept-Encoding value, once its spaces are removed, has exactly one comma-separated
token equal to `gzip`, the response of `endpointMapper(httpReqParser(raw))` carries the
header line `Content-Encoding: gzip`. -/
theorem C2_gzip_header (directoryPath : Str) (gz : Str → Str) (fs : FS) (raw v : Str)
    (req : httpRequest)
    (hparse : httpReqParser raw = .ok req)
    (hwire : wireAcceptEncoding raw = some v)
    (hone : (strippedTokens v).count (bytes "gzip") = 1)
    (hroute : answeredWithBody directoryPath req fs) :
    ∃ r, handle directoryPath gz raw fs = .ok r ∧
      carriesHeaderLine r.1 (bytes "Content-Encoding: gzip") := by
  have hae : encodingChecker req.headers.acceptEncoding = bytes "gzip" := by
    apply encodingChecker_of_count_one
    rw [httpReqParser_acceptEncoding raw req hparse, hwire]
    exact hone
  rw [handle_of_parse directoryPath gz raw fs req hparse]
  obtain ⟨hm, seg, hseg, hcase⟩ := hroute
  rcases hcase with ⟨rfl, s, hs⟩ | rfl | ⟨rfl, name, dat, hname, hdat⟩
  · refine ⟨(httpResponseParser gz (httpResponseBuilder s (bytes "text/plain")
      (bytes "HTTP/1.1 200 OK") (bytes "gzip")), fs), ?_, carries_gzip gz s _ (Or.inl rfl)⟩
    have h0 : bytes "echo" ≠ [] := by decide
    simp only [endpointMapper, echo, hm, hseg, hs, hae, if_true, h0, if_false]
  · refine ⟨(httpResponseParser gz (httpResponseBuilder req.headers.userAgent (bytes "text/plain")
      (bytes "HTTP/1.1 200 OK") (bytes "gzip")), fs), ?_, carries_gzip gz _ _ (Or.inl rfl)⟩
    have h0 : bytes "user-agent" ≠ [] := by decide
    have h1 : bytes "user-agent" ≠ bytes "echo" := by decide
    simp only [endpointMapper, userAgent, hm, hseg, hae, if_true, h0, h1, if_false]
  · refine ⟨(httpResponseParser gz (httpResponseBuilder dat (bytes "application/octet-stream")
      (bytes "HTTP/1.1 200 OK") (bytes "gzip")), fs), ?_, carries_gzip gz dat _ (Or.inr rfl)⟩
    have h0 : bytes "files" ≠ [] := by decide
    have h1 : bytes "files" ≠ bytes "echo" := by decide
    have h2 : bytes "files" ≠ bytes "user-agent" := by decide
    simp only [endpointMapper, getFile, hm, hseg, hname, hdat, hae, if_true, h0, h1, h2,
      if_false]

/-- C2, amended, at `GET /echo/abc` with `Accept-Encoding: deflate, gzip, br`. -/
theorem C2_gzip_header_witness :
    ∃ r, handle (bytes "/tmp/") (fun b => b)
        (bytes "GET /echo/abc HTTP/1.1\r\nAccept-Encoding: deflate, gzip, br\r\n\r\n")
        ⟨fun _ => none, fun _ => true, []⟩ = .ok r ∧
      carriesHeaderLine r.1 (bytes "Content-Encoding: gzip") :=
  C2_gzip_header (bytes "/tmp/") (fun b => b) ⟨fun _ => none, fun _ => true, []⟩
    (bytes "GET /echo/abc HTTP/1.1\r\nAccept-Encoding: deflate, gzip, br\r\n\r\n")
    (bytes "deflate, gzip, br")
    { requestLine := { method := { methodType := bytes "GET", methodUrl := bytes "/echo/abc" },
                       httpVersion := bytes "HTTP/1.1" },
      requestBody := { body := [] },
      headers := { headers.zero with acceptEncoding := bytes "deflate,gzip,br" } }
    rfl (by decide) (by decide) ⟨rfl, bytes "echo", rfl, Or.inl ⟨rfl, bytes "abc", rfl⟩⟩

/-! ## C3: no `Content-Encoding` header when gzip is not requested -/

/-- C3, as stated, fails: the value `g zip` has no comma-separated token that, with
surrounding whitespace trimmed, equals `gzip`, yet `GET /echo/abc` with the header
`Accept-Encoding: g zip` is answered with the header `Content-Encoding: gzip`, because
the parser removes every space of the value. -/
theorem C3_counterexample :
    wireAcceptEncoding (bytes "GET /echo/abc HTTP/1.1\r\nAccept-Encoding: g zip\r\n\r\n")
      = some (bytes "g zip") ∧
    bytes "gzip" ∉ trimmedTokens (bytes "g zip") ∧
    (∀ (directoryPath : Str) (gz : Str → Str) (fs : FS),
      handle directoryPath gz
          (bytes "GET /echo/abc HTTP/1.1\r\nAccept-Encoding: g zip\r\n\r\n") fs
        = .ok (bytes "HTTP/1.1 200 OK\r\nContent-Encoding: gzip\r\nContent-Type: text/plain\r\nContent-Length: "
                ++ Itoa ((gz (bytes "abc")).length : Int) ++ bytes "\r\n\r\n" ++ gz (bytes "abc"), fs)
      ∧ ¬ noContentEncoding
          (bytes "HTTP/1.1 200 OK\r\nContent-Encoding: gzip\r\nContent-Type: text/plain\r\nContent-Length: "
            ++ Itoa ((gz (bytes "abc")).length : Int) ++ bytes "\r\n\r\n" ++ gz (bytes "abc"))) := by
  refine ⟨by decide, by decide, fun directoryPath gz fs => ⟨?_, ?_⟩⟩
  · have hp : httpReqParser (bytes "GET /echo/abc HTTP/1.1\r\nAccept-Encoding: g zip\r\n\r\n")
        = .ok { requestLine := { method := { methodType := bytes "GET",
                                             methodUrl := bytes "/echo/abc" },
                                 httpVersion := bytes "HTTP/1.1" },
                requestBody := { body := [] },
                headers := { headers.zero with acceptEncoding := bytes "gzip" } } := rfl
    rw [handle_of_parse directoryPath gz _ fs _ hp]
    have hsplit : Split (bytes "/echo/abc") (bytes "/") = [[], bytes "echo", bytes "abc"] := by
      decide
    have hec : encodingChecker (bytes "gzip") = bytes "gzip" := by decide
    have h0 : bytes "echo" ≠ [] := by decide
    simp only [endpointMapper, echo, hsplit, index_one, index_two, if_true, h0, if_false, hec,
      httpResponseParser_encoded gz _ _ (bytes "gzip") (by decide), List.append_assoc]
    rfl
  · intro hno
    have hsec := headerSection_encoded (bytes "gzip") (bytes "text/plain") (gz (bytes "abc"))
      (gz (bytes "abc")).length (by decide) (by decide)
    have hshape : bytes "HTTP/1.1 200 OK\r\nContent-Encoding: gzip\r\nContent-Type: text/plain\r\nContent-Length: "
        ++ Itoa ((gz (bytes "abc")).length : Int) ++ bytes "\r\n\r\n" ++ gz (bytes "abc")
        = bytes "HTTP/1.1 200 OK\r\nContent-Encoding: " ++ bytes "gzip"
          ++ bytes "\r\nContent-Type: " ++ bytes "text/plain" ++ bytes "\r\nContent-Length: "
          ++ Itoa ((gz (bytes "abc")).length : Int) ++ bytes "\r\n\r\n" ++ gz (bytes "abc") := by
      simp only [List.append_assoc]; rfl
    rw [hshape] at hno
    have hmem : bytes "Content-Encoding: " ++ bytes "gzip" ∈ headerSection
        (bytes "HTTP/1.1 200 OK\r\nContent-Encoding: " ++ bytes "gzip"
          ++ bytes "\r\nContent-Type: " ++ bytes "text/plain" ++ bytes "\r\nContent-Length: "
          ++ Itoa ((gz (bytes "abc")).length : Int) ++ bytes "\r\n\r\n" ++ gz (bytes "abc")) := by
      rw [hsec]; exact List.mem_cons_of_mem _ (List.mem_cons_self _ _)
    exact hno _ hmem (by decide)

/-- C3, amended. For every raw request whose Accept-Encoding header is absent, or whose
Accept-Encoding value as sent on the wire has, once all its spaces are removed, no
comma-separated token equal to `gzip`, the header section of the response returned by
`endpointMapper(httpReqParser(raw))` contains no `Content-Encoding` header. -/
theorem C3_no_content_encoding (directoryPath : Str) (gz : Str → Str) (fs : FS) (raw : Str)
    (r : Str × FS)
    (hwire : ∀ v, wireAcceptEncoding raw = some v → bytes "gzip" ∉ strippedTokens v)
    (hresp : handle directoryPath gz raw fs = .ok r) :
    noContentEncoding r.1 := by
  obtain ⟨req, hparse, hmap⟩ := handle_inv directoryPath gz raw fs r hresp
  have hec := encodingChecker_of_wire raw req hparse hwire
  rcases endpointMapper_cases directoryPath gz req fs r hmap with
    h | h | h | h | ⟨ct, body, hct, h⟩
  · rw [h]; unfold noContentEncoding; decide
  · rw [h]; unfold noContentEncoding; decide
  · rw [h]; unfold noContentEncoding; decide
  · rw [h]; unfold noContentEncoding; decide
  · rw [h, hec]; exact noContentEncoding_plain gz body ct hct

set_option maxRecDepth 10000 in
/-- C3, amended, at `GET /echo/abc` with `Accept-Encoding: deflate, br`. -/
theorem C3_no_content_encoding_witness :
    noContentEncoding
      (bytes "HTTP/1.1 200 OK\r\nContent-Type: text/plain\r\nContent-Length: 3\r\n\r\nabc") :=
  C3_no_content_encoding (bytes "/tmp/") (fun b => b) ⟨fun _ => none, fun _ => true, []⟩
    (bytes "GET /echo/abc HTTP/1.1\r\nAccept-Encoding: deflate, br\r\n\r\n")
    (bytes "HTTP/1.1 200 OK\r\nContent-Type: text/plain\r\nContent-Length: 3\r\n\r\nabc",
      ⟨fun _ => none, fun _ => true, []⟩)
    (fun v hv => by
      have hw : wireAcceptEncoding
          (bytes "GET /echo/abc HTTP/1.1\r\nAccept-Encoding: deflate, br\r\n\r\n")
          = some (bytes "deflate, br") := by decide
      rw [hw] at hv
      cases hv
      decide)
    rfl

/-! ## C4: the negotiator -/

/-- C4 fails on the code at the value `gzip,gzip`: `encodingChecker` returns `gzipgzip`,
one `gzip` per matching token, not the single token `gzip`; the header sent for
`Accept-Encoding: gzip, gzip` is `Content-Encoding: gzipgzip`. -/
theorem C4_encodingChecker_duplicate :
    encodingChecker (bytes "gzip,gzip") = bytes "gzipgzip" ∧
    encodingChecker (bytes "gzip,gzip") ≠ bytes "gzip" ∧
    ∀ (directoryPath : Str) (gz : Str → Str) (fs : FS),
      handle directoryPath gz
          (bytes "GET /echo/abc HTTP/1.1\r\nAccept-Encoding: gzip, gzip\r\n\r\n") fs
        = .ok (bytes "HTTP/1.1 200 OK\r\nContent-Encoding: gzipgzip\r\nContent-Type: text/plain\r\nContent-Length: "
                ++ Itoa ((gz (bytes "abc")).length : Int) ++ bytes "\r\n\r\n" ++ gz (bytes "abc"), fs) := by
  refine ⟨by decide, by decide, fun directoryPath gz fs => ?_⟩
  have hp : httpReqParser (bytes "GET /echo/abc HTTP/1.1\r\nAccept-Encoding: gzip, gzip\r\n\r\n")
      = .ok { requestLine := { method := { methodType := bytes "GET",
                                           methodUrl := bytes "/echo/abc" },
                               httpVersion := bytes "HTTP/1.1" },
              requestBody := { body := [] },
              headers := { headers.zero with acceptEncoding := bytes "gzip,gzip" } } := rfl
  rw [handle_of_parse directoryPath gz _ fs _ hp]
  have hsplit : Split (bytes "/echo/abc") (bytes "/") = [[], bytes "echo", bytes "abc"] := by
    decide
  have hec : encodingChecker (bytes "gzip,gzip") = bytes "gzipgzip" := by decide
  have h0 : bytes "echo" ≠ [] := by decide
  simp only [endpointMapper, echo, hsplit, index_one, index_two, if_true, h0, if_false, hec,
    httpResponseParser_encoded gz _ _ (bytes "gzipgzip") (by decide), List.append_assoc]
  rfl

/-! ## C5 and C6: writing and reading files -/

theorem make_natCast (n : Nat) (h : n ≤ maxAlloc) :
    make (n : Int) = .ok (List.replicate n 0) := by
  unfold make
  rw [if_neg (by omega)]
  simp

theorem make_of_neg (n : Int) (h : n < 0) : make n = .error .makesliceLenOutOfRange := by
  unfold make
  rw [if_pos (Or.inl h)]

theorem make_of_large (n : Int) (h : (maxAlloc : Int) < n) :
    make n = .error .makesliceLenOutOfRange := by
  unfold make
  rw [if_pos (Or.inr h)]

/-- The buffer `postFile` hands to the write: the body cut or zero-padded to `n`. -/
theorem copy_replicate (n : Nat) (b : Str) :
    copy (List.replicate n 0) b = b.take n ++ List.replicate (n - b.length) 0 := by
  simp [copy]

theorem copy_replicate_length (b : Str) : copy (List.replicate b.length 0) b = b := by
  simp [copy]

/-- The segments of `/files/` followed by a name without a slash. -/
theorem Split_files (n : Str) (hn : (47 : UInt8) ∉ n) :
    Split (bytes "/files/" ++ n) (bytes "/") = [[], bytes "files", n] :=
  Split_path_two (bytes "files") n (by decide) hn

/-- C5. For every file name `n` without a slash and every body `b` (a string held in
memory, so no longer than the allocation limit), starting from any state of the file
system in which the write to the served path succeeds (as every write to a map does): a
POST of `/files/n` with body `b` and Content-Length the length of `b` returns the 201
response, and a GET of `/files/n` that follows it, with no gzip token in its
Accept-Encoding, returns status 200 with `Content-Type: application/octet-stream`, the
Content-Length of `b` and the body `b`. -/
theorem C5_post_then_get (directoryPath : Str) (gz : Str → Str) (fs : FS) (n b : Str)
    (post get : httpRequest)
    (hn : (47 : UInt8) ∉ n)
    (hb : b.length ≤ maxAlloc)
    (hw : fs.writable (directoryPath ++ n) = true)
    (hpm : post.requestLine.method.methodType = bytes "POST")
    (hpu : post.requestLine.method.methodUrl = bytes "/files/" ++ n)
    (hpb : post.requestBody.body = b)
    (hpl : post.headers.contentLength = (b.length : Int))
    (hgm : get.requestLine.method.methodType = bytes "GET")
    (hgu : get.requestLine.method.methodUrl = bytes "/files/" ++ n)
    (hga : bytes "gzip" ∉ Split get.headers.acceptEncoding (bytes ",")) :
    ∃ fs1, endpointMapper directoryPath gz post fs
        = .ok (bytes "HTTP/1.1 201 Created\r\n\r\n", fs1) ∧
      endpointMapper directoryPath gz get fs1
        = .ok (bytes "HTTP/1.1 200 OK\r\nContent-Type: application/octet-stream\r\nContent-Length: "
                ++ Itoa (b.length : Int) ++ bytes "\r\n\r\n" ++ b, fs1) := by
  have hsp := Split_files n hn
  have h0 : bytes "files" ≠ [] := by decide
  have h1 : bytes "files" ≠ bytes "echo" := by decide
  have h2 : bytes "files" ≠ bytes "user-agent" := by decide
  have hpg : bytes "POST" ≠ bytes "GET" := by decide
  refine ⟨(osWriteFile fs (directoryPath ++ n) b).2, ?_, ?_⟩
  · simp only [endpointMapper, postFile, hpm, hpg, hpu, hsp, index_one, index_two, if_true,
      if_false, hpl, hpb, make_natCast b.length hb, copy_replicate_length]
    simp [osWriteFile, hw]
  · simp only [endpointMapper, getFile, hgm, hgu, hsp, index_one, index_two, if_true, if_false,
      h0, h1, h2, encodingChecker_of_not_mem _ hga]
    have hread : osReadFile (osWriteFile fs (directoryPath ++ n) b).2 (directoryPath ++ n)
        = some b := by
      simp [osReadFile, osWriteFile, hw]
    simp only [hread, httpResponseParser_plain, List.append_assoc]
    rfl

/-- C5 at `n = foo.txt`, `b = hello`, Content-Length 5, on the empty file system. -/
theorem C5_post_then_get_witness :
    ∃ fs1, endpointMapper (bytes "/tmp/") (fun b => b)
        { requestLine := { method := { methodType := bytes "POST",
                                       methodUrl := bytes "/files/foo.txt" },
                           httpVersion := bytes "HTTP/1.1" },
          requestBody := { body := bytes "hello" },
          headers := { headers.zero with contentLength := 5 } }
        ⟨fun _ => none, fun _ => true, []⟩
        = .ok (bytes "HTTP/1.1 201 Created\r\n\r\n", fs1) ∧
      endpointMapper (bytes "/tmp/") (fun b => b)
        { requestLine := { method := { methodType := bytes "GET",
                                       methodUrl := bytes "/files/foo.txt" },
                           httpVersion := bytes "HTTP/1.1" },
          requestBody := { body := [] },
          headers := headers.zero }
        fs1
        = .ok (bytes "HTTP/1.1 200 OK\r\nContent-Type: application/octet-stream\r\nContent-Length: "
                ++ Itoa ((bytes "hello").length : Int) ++ bytes "\r\n\r\n" ++ bytes "hello", fs1) :=
  C5_post_then_get (bytes "/tmp/") (fun b => b) ⟨fun _ => none, fun _ => true, []⟩
    (bytes "foo.txt") (bytes "hello") _ _ (by decide) (by decide) rfl rfl rfl rfl rfl rfl rfl
    (by decide)

/-- C6, as stated, fails: a request is dispatched to `postFile` and nothing is handed
to the file write when the path has no second segment (`POST /files`, index out of
range), when the Content-Length is negative (`-5`), and when it is above the allocation
limit (`9223372036854775807`): in the last two cases `make` panics before the write. -/
theorem C6_counterexample :
    (∀ (directoryPath : Str) (fs : FS),
      postFile directoryPath
        { requestLine := { method := { methodType := bytes "POST", methodUrl := bytes "/files" },
                           httpVersion := bytes "HTTP/1.1" },
          requestBody := { body := bytes "hi" },
          headers := { headers.zero with contentLength := 2 } } fs
        = .error (.indexOutOfRange 2 2)) ∧
    (∀ (directoryPath : Str) (fs : FS),
      postFile directoryPath
        { requestLine := { method := { methodType := bytes "POST",
                                       methodUrl := bytes "/files/x" },
                           httpVersion := bytes "HTTP/1.1" },
          requestBody := { body := bytes "hi" },
          headers := { headers.zero with contentLength := -5 } } fs
        = .error .makesliceLenOutOfRange) ∧
    (∀ (directoryPath : Str) (fs : FS),
      postFile directoryPath
        { requestLine := { method := { methodType := bytes "POST",
                                       methodUrl := bytes "/files/x" },
                           httpVersion := bytes "HTTP/1.1" },
          requestBody := { body := bytes "hi" },
          headers := { headers.zero with contentLength := 9223372036854775807 } } fs
        = .error .makesliceLenOutOfRange) :=
  ⟨fun _ _ => rfl, fun _ _ => rfl, fun _ _ => rfl⟩

/-- C6, amended. For every request handled by `postFile` whose path has a second
segment, with body `b` and a Content-Length `n` that is not negative and not above the
allocation limit: the bytes handed to `os.WriteFile` are `b` cut or zero-padded to `n`
(their length is `n`, their first `min n |b|` bytes are those of `b`, every later byte
is zero), the path written is the serve directory followed by the second path segment,
and when the write succeeds the response is exactly the 201 response. -/
theorem C6_postFile_write (directoryPath : Str) (fs : FS) (req : httpRequest) (seg : Str)
    (n : Nat)
    (hseg : index (Split req.requestLine.method.methodUrl (bytes "/")) 2 = .ok seg)
    (hlen : req.headers.contentLength = (n : Int))
    (hmax : n ≤ maxAlloc) :
    ∃ toWrite response fs1,
      postFile directoryPath req fs = .ok (response, fs1) ∧
      fs1 = (osWriteFile fs (directoryPath ++ seg) toWrite).2 ∧
      fs1.writes = (directoryPath ++ seg, toWrite) :: fs.writes ∧
      toWrite = req.requestBody.body.take n
                  ++ List.replicate (n - req.requestBody.body.length) 0 ∧
      toWrite.length = n ∧
      toWrite.take (min n req.requestBody.body.length)
        = req.requestBody.body.take (min n req.requestBody.body.length) ∧
      (∀ i, min n req.requestBody.body.length ≤ i → i < n → toWrite[i]? = some 0) ∧
      ((osWriteFile fs (directoryPath ++ seg) toWrite).1 = true →
        response = bytes "HTTP/1.1 201 Created\r\n\r\n") := by
  refine ⟨req.requestBody.body.take n ++ List.replicate (n - req.requestBody.body.length) 0,
    if (osWriteFile fs (directoryPath ++ seg) (req.requestBody.body.take n
        ++ List.replicate (n - req.requestBody.body.length) 0)).1 = false then []
      else bytes "HTTP/1.1 201 Created\r\n\r\n", _, ?_, rfl, ?_, rfl, ?_, ?_, ?_, ?_⟩
  · simp only [postFile, hseg, hlen, make_natCast n hmax, copy_replicate]
    split <;> rfl
  · unfold osWriteFile; split <;> rfl
  · simp only [List.length_append, List.length_take, List.length_replicate]; omega
  · rw [List.take_append_of_le_length (by simp only [List.length_take]; omega)]
    rw [List.take_take]
    congr 1
    omega
  · intro i hi hin
    rw [List.getElem?_append_right (by simp only [List.length_take]; omega)]
    rw [List.getElem?_replicate]
    simp only [List.length_take]
    rw [if_pos (by omega)]
  · intro hok
    simp [hok]

/-- C6, amended, at `POST /files/x` with body `hi` and Content-Length 7. -/
theorem C6_postFile_write_witness :
    ∃ toWrite response fs1,
      postFile (bytes "/tmp/")
        { requestLine := { method := { methodType := bytes "POST",
                                       methodUrl := bytes "/files/x" },
                           httpVersion := bytes "HTTP/1.1" },
          requestBody := { body := bytes "hi" },
          headers := { headers.zero with contentLength := 7 } }
        ⟨fun _ => none, fun _ => true, []⟩ = .ok (response, fs1) ∧
      fs1 = (osWriteFile ⟨fun _ => none, fun _ => true, []⟩
              (bytes "/tmp/" ++ bytes "x") toWrite).2 ∧
      fs1.writes = (bytes "/tmp/" ++ bytes "x", toWrite) :: [] ∧
      toWrite = (bytes "hi").take 7 ++ List.replicate (7 - (bytes "hi").length) 0 ∧
      toWrite.length = 7 ∧
      toWrite.take (min 7 (bytes "hi").length) = (bytes "hi").take (min 7 (bytes "hi").length) ∧
      (∀ i, min 7 (bytes "hi").length ≤ i → i < 7 → toWrite[i]? = some 0) ∧
      ((osWriteFile ⟨fun _ => none, fun _ => true, []⟩
          (bytes "/tmp/" ++ bytes "x") toWrite).1 = true →
        response = bytes "HTTP/1.1 201 Created\r\n\r\n") :=
  C6_postFile_write (bytes "/tmp/") ⟨fun _ => none, fun _ => true, []⟩ _ (bytes "x") 7 rfl rfl
    (by decide)

/-! ## C7: requests outside the route table -/

/-- C7, as stated, fails: `PUT /files/x` with Content-Length 2 and body `hi` has a
method that is neither GET nor POST, yet `endpointMapper` hands it to `postFile`: the
bytes `hi` are written to the served path `x` and the response is the 201 response (or
the empty string when the write fails), never the 404 response. -/
theorem C7_counterexample :
    bytes "PUT" ≠ bytes "GET" ∧ bytes "PUT" ≠ bytes "POST" ∧
    ∀ (directoryPath : Str) (gz : Str → Str) (fs : FS),
      ∃ response fs1,
        endpointMapper directoryPath gz
          { requestLine := { method := { methodType := bytes "PUT",
                                         methodUrl := bytes "/files/x" },
                             httpVersion := bytes "HTTP/1.1" },
            requestBody := { body := bytes "hi" },
            headers := { headers.zero with contentLength := 2 } } fs
          = .ok (response, fs1) ∧
        response ≠ bytes "HTTP/1.1 404 Not Found\r\n\r\n" ∧
        (fs.writable (directoryPath ++ bytes "x") = true →
          response = bytes "HTTP/1.1 201 Created\r\n\r\n") ∧
        fs1.writes = (directoryPath ++ bytes "x", bytes "hi") :: fs.writes := by
  refine ⟨by decide, by decide, fun directoryPath gz fs => ?_⟩
  have hsp : Split (bytes "/files/x") (bytes "/") = [[], bytes "files", bytes "x"] := by decide
  have hpg : bytes "PUT" ≠ bytes "GET" := by decide
  have hmk : make 2 = .ok [0, 0] := rfl
  have hcp : copy [0, 0] (bytes "hi") = bytes "hi" := by decide
  by_cases hw : fs.writable (directoryPath ++ bytes "x") = true
  · refine ⟨bytes "HTTP/1.1 201 Created\r\n\r\n",
      (osWriteFile fs (directoryPath ++ bytes "x") (bytes "hi")).2, ?_, by decide,
      fun _ => rfl, ?_⟩
    · simp only [endpointMapper, postFile, hpg, hsp, index_one, index_two, if_true, if_false,
        hmk, hcp]
      simp [osWriteFile, hw]
    · simp [osWriteFile, hw]
  · refine ⟨[], (osWriteFile fs (directoryPath ++ bytes "x") (bytes "hi")).2, ?_, by decide,
      fun h => absurd h hw, ?_⟩
    · simp only [endpointMapper, postFile, hpg, hsp, index_one, index_two, if_true, if_false,
        hmk, hcp]
      simp [osWriteFile, hw]
    · simp [osWriteFile, hw]

/-- C7, amended. For every request whose method is GET and whose first path segment is
none of the empty segment, `echo`, `user-agent` and `files`, and for every request whose
method is not GET and whose first path segment is not `files`, `endpointMapper` returns
exactly the bare 404 response and leaves the file system as it was: no file write. -/
theorem C7_not_found (directoryPath : Str) (gz : Str → Str) (fs : FS) (req : httpRequest)
    (seg : Str)
    (hseg : index (Split req.requestLine.method.methodUrl (bytes "/")) 1 = .ok seg)
    (hpair : (req.requestLine.method.methodType = bytes "GET" ∧ seg ≠ [] ∧
                seg ≠ bytes "echo" ∧ seg ≠ bytes "user-agent" ∧ seg ≠ bytes "files") ∨
             (req.requestLine.method.methodType ≠ bytes "GET" ∧ seg ≠ bytes "files")) :
    endpointMapper directoryPath gz req fs
      = .ok (bytes "HTTP/1.1 404 Not Found\r\n\r\n", fs) := by
  rcases hpair with ⟨hm, h0, h1, h2, h3⟩ | ⟨hm, h3⟩
  · simp only [endpointMapper, hm, hseg, if_true, h0, h1, h2, h3, if_false]
  · simp only [endpointMapper, hm, hseg, h3, if_false]

/-- C7, amended, at `DELETE /echo/abc`. -/
theorem C7_not_found_witness :
    endpointMapper (bytes "/tmp/") (fun b => b)
      { requestLine := { method := { methodType := bytes "DELETE",
                                     methodUrl := bytes "/echo/abc" },
                         httpVersion := bytes "HTTP/1.1" },
        requestBody := { body := [] },
        headers := headers.zero }
      ⟨fun _ => none, fun _ => true, []⟩
      = .ok (bytes "HTTP/1.1 404 Not Found\r\n\r\n", ⟨fun _ => none, fun _ => true, []⟩) :=
  C7_not_found (bytes "/tmp/") (fun b => b) ⟨fun _ => none, fun _ => true, []⟩ _ (bytes "echo")
    rfl (Or.inr ⟨by decide, by decide⟩)

/-! ## C8, C9, C10: requests that are too short -/

theorem index_of_length_le {α : Type} (xs : List α) (i : Nat) (h : xs.length ≤ i) :
    index xs i = .error (.indexOutOfRange i xs.length) := by
  unfold index
  rw [List.get?_eq_getElem?, List.getElem?_eq_none h]

theorem index_of_lt {α : Type} (xs : List α) (i : Nat) (h : i < xs.length) :
    index xs i = .ok (xs.get ⟨i, h⟩) := by
  unfold index
  rw [List.get?_eq_getElem?, List.getElem?_eq_getElem h]
  rfl

theorem index_Split_zero (s sep : Str) : index (Split s sep) 0 = .ok ((Split s sep).headD []) := by
  cases h : Split s sep with
  | nil => exact absurd h (Split_ne_nil _ _)
  | cons x xs => rfl

theorem Split_length_pos (s sep : Str) : 1 ≤ (Split s sep).length := by
  cases h : Split s sep with
  | nil => exact absurd h (Split_ne_nil _ _)
  | cons x xs => simp

/-- C8, as stated, fails: on the buffer `GET /`, whose first line has two tokens,
`httpReqParser` reads token 2 of the two-token list, which is the index-out-of-range
panic of Go, not an error value; it reads token 1 of the one-token list on the empty
buffer and on `GET`. -/
theorem C8_counterexample :
    httpReqParser (bytes "GET /") = .error (.indexOutOfRange 2 2) ∧
    httpReqParser (bytes "GET") = .error (.indexOutOfRange 1 1) ∧
    httpReqParser [] = .error (.indexOutOfRange 1 1) :=
  ⟨rfl, rfl, rfl⟩

/-- C8, amended. For every raw buffer whose first CRLF-delimited line has fewer than
three space-separated tokens, `httpReqParser` returns no request and no error value: it
stops with the index-out-of-range panic on the token list, at index 1 when the line has
one token and at index 2 when it has two. -/
theorem C8_request_line_panics (raw : Str)
    (h : (Split ((Split raw (bytes "\r\n")).headD []) (bytes " ")).length < 3) :
    httpReqParser raw =
      .error (.indexOutOfRange
        (Split ((Split raw (bytes "\r\n")).headD []) (bytes " ")).length
        (Split ((Split raw (bytes "\r\n")).headD []) (bytes " ")).length) ∧
    1 ≤ (Split ((Split raw (bytes "\r\n")).headD []) (bytes " ")).length := by
  have hpos := Split_length_pos ((Split raw (bytes "\r\n")).headD []) (bytes " ")
  refine ⟨?_, hpos⟩
  unfold httpReqParser
  simp only [index_Split_zero]
  generalize Split ((Split raw (bytes "\r\n")).headD []) (bytes " ") = toks at h hpos
  match toks, h, hpos with
  | [_], _, _ => rfl
  | [_, _], _, _ => rfl
  | _ :: _ :: _ :: _, h, _ => simp at h; omega

/-- C8, amended, at the buffer `GET`. -/
theorem C8_request_line_panics_witness :
    httpReqParser (bytes "GET") =
      .error (.indexOutOfRange
        (Split ((Split (bytes "GET") (bytes "\r\n")).headD []) (bytes " ")).length
        (Split ((Split (bytes "GET") (bytes "\r\n")).headD []) (bytes " ")).length) ∧
    1 ≤ (Split ((Split (bytes "GET") (bytes "\r\n")).headD []) (bytes " ")).length :=
  C8_request_line_panics (bytes "GET") (by decide)

/-- The only panic of one iteration of the header loop: a recognised header line
without a space, read at index 1. -/
theorem parseHeader_error (hs : headers) (l : Str) (e : Panic)
    (h : parseHeader hs l = .error e) : e = .indexOutOfRange 1 1 := by
  obtain ⟨rest, hsp, -⟩ := Split_head_tail 32 l
  unfold parseHeader at h
  rw [bytes_space, hsp] at h
  simp only [index_zero] at h
  cases rest with
  | nil =>
      have hi : index [l.takeWhile (fun x => x ≠ 32)] 1 = .error (.indexOutOfRange 1 1) := rfl
      simp only [hi] at h
      split_ifs at h <;> (injection h with h; exact h.symm)
  | cons y ys =>
      simp only [index_one] at h
      split_ifs at h
      split at h <;> cases h

/-- The header loop over lines none of which is empty ends in a panic: reading the
line after the last one, or a recognised header line without a space. -/
theorem headerLoop_no_empty (n : Nat) : ∀ (ls : List Str) (i : Nat) (hs : headers),
    (∀ l ∈ ls, l ≠ []) →
    headerLoop n ls i hs = .error (.indexOutOfRange (i + ls.length) n) ∨
    headerLoop n ls i hs = .error (.indexOutOfRange 1 1)
  | [], i, hs, _ => Or.inl rfl
  | header :: rest, i, hs, h => by
      have he : header ≠ [] := h header (List.mem_cons_self _ _)
      have hrest : ∀ l ∈ rest, l ≠ [] := fun l hl => h l (List.mem_cons_of_mem _ hl)
      unfold headerLoop
      rw [if_neg he]
      cases hp : parseHeader hs header with
      | error e =>
          right
          simp only
          rw [parseHeader_error hs header e hp]
      | ok hs1 =>
          simp only
          rcases headerLoop_no_empty n rest (i + 1) hs1 hrest with h1 | h1
          · left
            rw [h1, List.length_cons]
            congr 2
            omega
          · right
            exact h1

/-- C9, as stated, fails: on the buffer `GET / HTTP/1.1`, CRLF, `Host: x`, which has no
empty line, `httpReqParser` reads line 2 of the two lines, which is the
index-out-of-range panic of Go, not an error value. -/
theorem C9_counterexample :
    httpReqParser (bytes "GET / HTTP/1.1\r\nHost: x") = .error (.indexOutOfRange 2 2) :=
  rfl

/-- C9, amended. For every raw buffer whose request line has at least three tokens and
in which no empty line follows the request line, `httpReqParser` returns no request and
no error value: it stops with an index-out-of-range panic, either reading the line
after the last line (index and length both the number of lines) or reading the value of
a recognised header line that has no space (index 1, length 1). -/
theorem C9_truncated_panics (raw : Str)
    (h3 : 3 ≤ (Split ((Split raw (bytes "\r\n")).headD []) (bytes " ")).length)
    (hno : ∀ l ∈ (Split raw (bytes "\r\n")).drop 1, l ≠ []) :
    httpReqParser raw = .error (.indexOutOfRange (Split raw (bytes "\r\n")).length
                                  (Split raw (bytes "\r\n")).length) ∨
    httpReqParser raw = .error (.indexOutOfRange 1 1) := by
  have hlen := Split_length_pos raw (bytes "\r\n")
  have hloop := headerLoop_no_empty (Split raw (bytes "\r\n")).length
    ((Split raw (bytes "\r\n")).drop 1) 1 headers.zero hno
  have hidx : 1 + ((Split raw (bytes "\r\n")).drop 1).length = (Split raw (bytes "\r\n")).length := by
    rw [List.length_drop]; omega
  rw [hidx] at hloop
  unfold httpReqParser
  simp only [index_Split_zero]
  rw [index_of_lt _ 1 (by omega), index_of_lt _ 2 (by omega)]
  simp only
  rcases hloop with hl | hl
  · left; rw [hl]
  · right; rw [hl]

/-- C9, amended, at the buffer `GET / HTTP/1.1` without any CRLF. -/
theorem C9_truncated_panics_witness :
    httpReqParser (bytes "GET / HTTP/1.1") =
        .error (.indexOutOfRange (Split (bytes "GET / HTTP/1.1") (bytes "\r\n")).length
                  (Split (bytes "GET / HTTP/1.1") (bytes "\r\n")).length) ∨
    httpReqParser (bytes "GET / HTTP/1.1") = .error (.indexOutOfRange 1 1) :=
  C9_truncated_panics (bytes "GET / HTTP/1.1") (by decide) (by decide)

/-- C10, as stated, fails: `GET /echo` and `GET /files` have no second path segment;
`echo` and `getFile` read segment 2 of the two segments, which is the
index-out-of-range panic of Go, and no 404 response is returned. -/
theorem C10_counterexample :
    (∀ (directoryPath : Str) (gz : Str → Str) (fs : FS) (h : headers) (b : requestBody),
      endpointMapper directoryPath gz
        { requestLine := { method := { methodType := bytes "GET", methodUrl := bytes "/echo" },
                           httpVersion := bytes "HTTP/1.1" },
          requestBody := b, headers := h } fs
        = .error (.indexOutOfRange 2 2)) ∧
    (∀ (directoryPath : Str) (gz : Str → Str) (fs : FS) (h : headers) (b : requestBody),
      endpointMapper directoryPath gz
        { requestLine := { method := { methodType := bytes "GET", methodUrl := bytes "/files" },
                           httpVersion := bytes "HTTP/1.1" },
          requestBody := b, headers := h } fs
        = .error (.indexOutOfRange 2 2)) :=
  ⟨fun _ _ _ _ _ => rfl, fun _ _ _ _ _ => rfl⟩

/-- C10, amended. For every GET request whose first path segment is `echo` or `files`
and whose path splits on the slash into fewer than three segments, `endpointMapper`
returns no response: the handler reads segment 2 of the two segments and the program
stops with the index-out-of-range panic (index 2, length 2). -/
theorem C10_missing_segment_panics (directoryPath : Str) (gz : Str → Str) (fs : FS)
    (req : httpRequest) (seg : Str)
    (hm : req.requestLine.method.methodType = bytes "GET")
    (hlen : (Split req.requestLine.method.methodUrl (bytes "/")).length < 3)
    (hseg : index (Split req.requestLine.method.methodUrl (bytes "/")) 1 = .ok seg)
    (hroute : seg = bytes "echo" ∨ seg = bytes "files") :
    endpointMapper directoryPath gz req fs = .error (.indexOutOfRange 2 2) := by
  have h2 : index (Split req.requestLine.method.methodUrl (bytes "/")) 2
      = .error (.indexOutOfRange 2 2) := by
    generalize Split req.requestLine.method.methodUrl (bytes "/") = segs at hlen hseg
    match segs, hlen, hseg with
    | [_, _], _, _ => rfl
    | [_], _, hseg => cases hseg
    | [], _, hseg => cases hseg
    | _ :: _ :: _ :: _, hlen, _ => simp at hlen; omega
  have h0 : bytes "echo" ≠ [] := by decide
  have h1 : bytes "files" ≠ [] := by decide
  have h3 : bytes "files" ≠ bytes "echo" := by decide
  have h4 : bytes "files" ≠ bytes "user-agent" := by decide
  rcases hroute with rfl | rfl
  · simp only [endpointMapper, echo, hm, hseg, h2, if_true, h0, if_false]
  · simp only [endpointMapper, getFile, hm, hseg, h2, if_true, h1, h3, h4, if_false]

/-- C10, amended, at `GET /files`. -/
theorem C10_missing_segment_panics_witness :
    endpointMapper (bytes "/tmp/") (fun b => b)
      { requestLine := { method := { methodType := bytes "GET", methodUrl := bytes "/files" },
                         httpVersion := bytes "HTTP/1.1" },
        requestBody := { body := [] },
        headers := headers.zero }
      ⟨fun _ => none, fun _ => true, []⟩
      = .error (.indexOutOfRange 2 2) :=
  C10_missing_segment_panics (bytes "/tmp/") (fun b => b) ⟨fun _ => none, fun _ => true, []⟩ _
    (bytes "files") rfl (by decide) rfl (Or.inr rfl)


/-! ## The header loop, line by line -/

theorem takeWhile_of_not_mem (c : UInt8) : ∀ (l : Str), c ∉ l →
    l.takeWhile (fun x => x ≠ c) = l ∧ l.dropWhile (fun x => x ≠ c) = []
  | [], _ => ⟨rfl, rfl⟩
  | x :: xs, h => by
      have hx : x ≠ c := fun e => h (by simp [e])
      have hxs : c ∉ xs := fun m => h (List.mem_cons_of_mem _ m)
      obtain ⟨h1, h2⟩ := takeWhile_of_not_mem c xs hxs
      constructor
      · rw [List.takeWhile_cons, if_pos (by simpa using hx), h1]
      · rw [List.dropWhile_cons, if_pos (by simpa using hx), h2]

/-- The pieces of a split on a byte: the text before the first occurrence, then the
pieces of the text after it. -/
theorem Split_eq_cons (c : UInt8) : ∀ (l : Str),
    Split l [c] = l.takeWhile (fun x => x ≠ c) ::
      (if c ∈ l then Split ((l.dropWhile (fun x => x ≠ c)).drop 1) [c] else [])
  | [] => by simp [Split_nil]
  | x :: xs => by
      by_cases h : x = c
      · subst h
        rw [Split_cons_sep]
        simp
      · have ih := Split_eq_cons c xs
        rw [Split_cons_other c x xs h, ih]
        have hmem : (c ∈ x :: xs) ↔ c ∈ xs := by
          simp [List.mem_cons, Ne.symm h]
        by_cases hc : c ∈ xs
        · rw [if_pos hc, if_pos (hmem.mpr hc)]
          simp [h]
        · rw [if_neg hc, if_neg (fun m => hc (hmem.mp m))]
          simp [h]

theorem afterFirstSpace_of_not_mem (l : Str) (h : (32 : UInt8) ∉ l) : afterFirstSpace l = [] := by
  unfold afterFirstSpace
  rw [(takeWhile_of_not_mem 32 l h).2]
  rfl

/-- One iteration of the header loop, stated on the text of the line: a recognised
header line without a space panics at index 1, any other line has the effect
`headerStep`. -/
theorem parseHeader_eq (hs : headers) (l : Str) :
    parseHeader hs l =
      if (32 : UInt8) ∉ l ∧ (firstToken l = bytes "Host:" ∨ firstToken l = bytes "User-Agent:" ∨
          firstToken l = bytes "Accept:" ∨ firstToken l = bytes "Content-Length:")
      then .error (.indexOutOfRange 1 1)
      else .ok (headerStep hs l) := by
  have hsp := Split_eq_cons 32 l
  have hAE1 : bytes "Accept-Encoding:" ≠ bytes "Host:" := by decide
  have hAE2 : bytes "Accept-Encoding:" ≠ bytes "User-Agent:" := by decide
  have hAE3 : bytes "Accept-Encoding:" ≠ bytes "Accept:" := by decide
  have hAE4 : bytes "Accept-Encoding:" ≠ bytes "Content-Length:" := by decide
  by_cases hmem : (32 : UInt8) ∈ l
  · rw [if_pos hmem] at hsp
    have hsp2 := Split_eq_cons 32 ((l.dropWhile (fun x => x ≠ 32)).drop 1)
    rw [hsp2] at hsp
    have hj := Join_Split_nil 32 ((l.dropWhile (fun x => x ≠ 32)).drop 1)
    rw [hsp2] at hj
    unfold parseHeader headerStep secondToken firstToken afterFirstSpace
    rw [bytes_space, hsp]
    simp only [index_zero, index_one, List.drop_succ_cons, List.drop_zero, hj, hmem,
      not_true_eq_false, false_and, if_false]
    split_ifs <;> first | rfl | (split <;> rfl)
  · rw [if_neg hmem] at hsp
    have hafs := afterFirstSpace_of_not_mem l hmem
    have hi : index [l.takeWhile (fun x => x ≠ 32)] 1 = .error (.indexOutOfRange 1 1) := rfl
    unfold parseHeader headerStep
    rw [bytes_space, hsp]
    simp only [index_zero, hi, List.drop_succ_cons, List.drop_zero, hmem, not_false_eq_true,
      true_and, hafs]
    unfold firstToken
    generalize l.takeWhile (fun x => x ≠ 32) = name
    by_cases h1 : name = bytes "Host:"
    · simp [h1]
    · by_cases h2 : name = bytes "User-Agent:"
      · simp [h1, h2]
      · by_cases h3 : name = bytes "Accept:"
        · simp [h1, h2, h3]
        · by_cases h4 : name = bytes "Content-Length:"
          · simp [h1, h2, h3, h4]
          · by_cases h5 : name = bytes "Accept-Encoding:"
            · simp [h1, h2, h3, h4, h5, hAE1, hAE2, hAE3, hAE4, Join]
            · simp [h1, h2, h3, h4, h5]

/-- When the header loop returns, it has applied `headerStep` to the lines before the
first empty line, in order, and stopped at that empty line. -/
theorem headerLoop_ok (n : Nat) : ∀ (ls : List Str) (i : Nat) (hs hs1 : headers) (j : Nat),
    headerLoop n ls i hs = .ok (hs1, j) →
    hs1 = (ls.takeWhile (fun l => l ≠ [])).foldl headerStep hs ∧
    j = i + (ls.takeWhile (fun l => l ≠ [])).length ∧
    ls[(ls.takeWhile (fun l => l ≠ [])).length]? = some []
  | [], i, hs, hs1, j, h => by simp [headerLoop] at h
  | header :: rest, i, hs, hs1, j, h => by
      unfold headerLoop at h
      by_cases he : header = []
      · rw [if_pos he] at h
        injection h with h
        injection h with h1 h2
        subst h1 h2 he
        simp [List.takeWhile]
      · rw [if_neg he] at h
        rw [parseHeader_eq] at h
        split_ifs at h
        have ih := headerLoop_ok n rest (i + 1) _ hs1 j h
        rw [List.takeWhile_cons, if_pos (by simpa using he)]
        refine ⟨ih.1, ?_, ?_⟩
        · rw [ih.2.1, List.length_cons]; omega
        · rw [List.length_cons, List.getElem?_cons_succ]; exact ih.2.2

/-- The header loop returns when an empty line exists and every line before the first
empty line contains a space. -/
theorem headerLoop_of_spaces (n : Nat) : ∀ (ls : List Str) (i : Nat) (hs : headers),
    (∀ l ∈ ls.takeWhile (fun l => l ≠ []), (32 : UInt8) ∈ l) →
    (ls.takeWhile (fun l => l ≠ [])).length < ls.length →
    headerLoop n ls i hs =
      .ok ((ls.takeWhile (fun l => l ≠ [])).foldl headerStep hs,
           i + (ls.takeWhile (fun l => l ≠ [])).length)
  | [], i, hs, _, hlen => by simp at hlen
  | header :: rest, i, hs, hsp, hlen => by
      unfold headerLoop
      by_cases he : header = []
      · subst he
        simp [List.takeWhile]
      · have hd : decide (header ≠ []) = true := by simpa using he
        rw [List.takeWhile_cons, if_pos hd] at hsp hlen ⊢
        have h32 : (32 : UInt8) ∈ header := hsp header (List.mem_cons_self _ _)
        rw [if_neg he, parseHeader_eq, if_neg (fun h => h.1 h32)]
        simp only
        rw [headerLoop_of_spaces n rest (i + 1) (headerStep hs header)
          (fun l hl => hsp l (List.mem_cons_of_mem _ hl))
          (by simpa [List.length_cons] using hlen)]
        simp only [List.foldl_cons, List.length_cons]
        congr 2
        omega

/-- What a parsed request holds: the first three tokens of the request line, the
headers obtained by applying `headerStep` to the header lines in order, and as body the
line that follows the first empty line. -/
theorem httpReqParser_ok (raw : Str) (req : httpRequest) (h : httpReqParser raw = .ok req) :
    index (Split ((Split raw (bytes "\r\n")).headD []) (bytes " ")) 0
      = .ok req.requestLine.method.methodType ∧
    index (Split ((Split raw (bytes "\r\n")).headD []) (bytes " ")) 1
      = .ok req.requestLine.method.methodUrl ∧
    index (Split ((Split raw (bytes "\r\n")).headD []) (bytes " ")) 2
      = .ok req.requestLine.httpVersion ∧
    req.headers = (requestHeaderLines raw).foldl headerStep headers.zero ∧
    ((Split raw (bytes "\r\n")).drop 1)[(requestHeaderLines raw).length]? = some [] ∧
    ((Split raw (bytes "\r\n")).drop 1)[(requestHeaderLines raw).length + 1]?
      = some req.requestBody.body := by
  obtain ⟨line0, m0, m1, m2, hs, headerIndex, body, h0, hm0, hm1, hm2, hl, hb, hreq⟩ :=
    httpReqParser_inv raw req h
  subst hreq
  rw [index_Split_zero] at h0
  injection h0 with h0
  subst h0
  obtain ⟨hhs, hj, hempty⟩ := headerLoop_ok _ _ _ _ _ _ hl
  refine ⟨hm0, hm1, hm2, hhs, hempty, ?_⟩
  unfold requestHeaderLines
  rw [List.getElem?_drop]
  subst hj
  unfold index at hb
  rw [List.get?_eq_getElem?] at hb
  cases hx : (Split raw (bytes "\r\n"))[1 + (((Split raw (bytes "\r\n")).drop 1).takeWhile
      (fun l => l ≠ [])).length + 1]? with
  | none => rw [hx] at hb; cases hb
  | some x =>
      rw [hx] at hb
      injection hb with hb
      subst hb
      rw [← hx]
      congr 1

/-! ## The header fields of a parsed request -/

theorem foldl_proj {β : Type} (π : headers → β) (g : Str → β → β)
    (hstep : ∀ hs l, π (headerStep hs l) = g l (π hs)) : ∀ (ls : List Str) (hs : headers),
    π (ls.foldl headerStep hs) = ls.foldl (fun b l => g l b) (π hs)
  | [], _ => rfl
  | l :: ls, hs => by
      rw [List.foldl_cons, List.foldl_cons, foldl_proj π g hstep ls, hstep]

/-- A field that every matching line overwrites holds the value of the last matching
line, or its initial value when no line matches. -/
theorem foldl_last {β : Type} (p : Str → Bool) (f : Str → β) : ∀ (ls : List Str) (b : β),
    ls.foldl (fun b l => if p l = true then f l else b) b
      = (((ls.filter p).getLast?).map f).getD b
  | [], _ => rfl
  | l :: ls, b => by
      rw [List.foldl_cons, foldl_last p f ls]
      by_cases hp : p l = true
      · rw [if_pos hp, List.filter_cons_of_pos hp]
        cases hF : ls.filter p with
        | nil => simp
        | cons y ys =>
            obtain ⟨z, hz⟩ : ∃ z, (y :: ys).getLast? = some z :=
              ⟨_, List.getLast?_eq_getLast _ (by simp)⟩
            rw [List.getLast?_cons_cons, hz]
            simp
      · rw [if_neg hp, List.filter_cons_of_neg hp]

theorem headerStep_host (hs : headers) (l : Str) :
    (headerStep hs l).host =
      if decide (firstToken l = bytes "Host:") = true then secondToken l else hs.host := by
  unfold headerStep
  simp only [decide_eq_true_eq]
  split_ifs <;> first | rfl | (split <;> rfl)

theorem headerStep_userAgent (hs : headers) (l : Str) :
    (headerStep hs l).userAgent =
      if decide (firstToken l = bytes "User-Agent:") = true then secondToken l
      else hs.userAgent := by
  unfold headerStep
  simp only [decide_eq_true_eq]
  generalize firstToken l = name
  by_cases h : name = bytes "User-Agent:"
  · subst h
    rw [if_neg (by decide), if_pos rfl, if_pos rfl]
  · rw [if_neg h]
    split_ifs <;> first | rfl | (split <;> rfl)

theorem headerStep_accept (hs : headers) (l : Str) :
    (headerStep hs l).accept =
      if decide (firstToken l = bytes "Accept:") = true then secondToken l else hs.accept := by
  unfold headerStep
  simp only [decide_eq_true_eq]
  generalize firstToken l = name
  by_cases h : name = bytes "Accept:"
  · subst h
    rw [if_neg (by decide), if_neg (by decide), if_pos rfl, if_pos rfl]
  · rw [if_neg h]
    split_ifs <;> first | rfl | (split <;> rfl)

theorem headerStep_contentLength (hs : headers) (l : Str) :
    (headerStep hs l).contentLength =
      if firstToken l = bytes "Content-Length:" then
        (Atoi (secondToken l)).getD hs.contentLength
      else hs.contentLength := by
  unfold headerStep
  generalize firstToken l = name
  by_cases h : name = bytes "Content-Length:"
  · subst h
    rw [if_neg (by decide), if_neg (by decide), if_neg (by decide), if_pos rfl, if_pos rfl]
    cases Atoi (secondToken l) <;> rfl
  · rw [if_neg h]
    split_ifs <;> rfl

/-- The host, userAgent and accept fields of a parsed request: the value token of the
last header line with that name, or the empty string when there is none. -/
theorem httpReqParser_fields (raw : Str) (req : httpRequest) (h : httpReqParser raw = .ok req) :
    req.headers.host = (((wireHeaderValue (bytes "Host:") raw).map firstToken).getD []) ∧
    req.headers.userAgent
      = (((wireHeaderValue (bytes "User-Agent:") raw).map firstToken).getD []) ∧
    req.headers.accept = (((wireHeaderValue (bytes "Accept:") raw).map firstToken).getD []) := by
  have hh := (httpReqParser_ok raw req h).2.2.2.1
  refine ⟨?_, ?_, ?_⟩
  · rw [hh, foldl_proj (fun hs => hs.host) _ headerStep_host,
      foldl_last (fun l => decide (firstToken l = bytes "Host:")) secondToken]
    simp only [wireHeaderValue, Option.map_map]
    rfl
  · rw [hh, foldl_proj (fun hs => hs.userAgent) _ headerStep_userAgent,
      foldl_last (fun l => decide (firstToken l = bytes "User-Agent:")) secondToken]
    simp only [wireHeaderValue, Option.map_map]
    rfl
  · rw [hh, foldl_proj (fun hs => hs.accept) _ headerStep_accept,
      foldl_last (fun l => decide (firstToken l = bytes "Accept:")) secondToken]
    simp only [wireHeaderValue, Option.map_map]
    rfl

/-! ## C11, C12, C13: the user-agent route, a missing file, the root route -/

set_option maxRecDepth 10000 in
/-- C11. For every request with method GET and path `/user-agent` whose Accept-Encoding
has no `gzip` token, `endpointMapper` returns exactly the status line 200, the header
`Content-Type: text/plain`, the header `Content-Length` with the decimal length of the
request's userAgent field, a blank line and that field as body; when the request is the
parse of a raw request carrying `User-Agent: test-client/1.0`, the body is exactly
`test-client/1.0`. -/
theorem C11_user_agent (directoryPath : Str) (gz : Str → Str) (fs : FS) (req : httpRequest)
    (hm : req.requestLine.method.methodType = bytes "GET")
    (hp : req.requestLine.method.methodUrl = bytes "/user-agent")
    (hae : bytes "gzip" ∉ Split req.headers.acceptEncoding (bytes ",")) :
    endpointMapper directoryPath gz req fs =
      .ok (bytes "HTTP/1.1 200 OK\r\nContent-Type: text/plain\r\nContent-Length: "
            ++ Itoa (req.headers.userAgent.length : Int) ++ bytes "\r\n\r\n"
            ++ req.headers.userAgent, fs) ∧
    ∀ raw, httpReqParser raw = .ok req →
      wireHeaderValue (bytes "User-Agent:") raw = some (bytes "test-client/1.0") →
      endpointMapper directoryPath gz req fs =
        .ok (bytes "HTTP/1.1 200 OK\r\nContent-Type: text/plain\r\nContent-Length: 15\r\n\r\ntest-client/1.0",
             fs) := by
  have hsplit : Split req.requestLine.method.methodUrl (bytes "/") = [[], bytes "user-agent"] := by
    rw [hp]; decide
  have h0 : bytes "user-agent" ≠ [] := by decide
  have h1 : bytes "user-agent" ≠ bytes "echo" := by decide
  have hresp : endpointMapper directoryPath gz req fs =
      .ok (bytes "HTTP/1.1 200 OK\r\nContent-Type: text/plain\r\nContent-Length: "
            ++ Itoa (req.headers.userAgent.length : Int) ++ bytes "\r\n\r\n"
            ++ req.headers.userAgent, fs) := by
    simp only [endpointMapper, userAgent, hm, hsplit, index_one, if_true, h0, h1, if_false,
      encodingChecker_of_not_mem _ hae, httpResponseParser_plain, List.append_assoc]
    rfl
  refine ⟨hresp, fun raw hparse hua => ?_⟩
  have hfield := (httpReqParser_fields raw req hparse).2.1
  rw [hua] at hfield
  have hval : req.headers.userAgent = bytes "test-client/1.0" := by
    rw [hfield]; decide
  rw [hresp, hval]
  rfl

set_option maxRecDepth 10000 in
/-- C11 at the raw request `GET /user-agent` with `User-Agent: test-client/1.0`. -/
theorem C11_user_agent_witness :
    endpointMapper (bytes "/tmp/") (fun b => b)
      { requestLine := { method := { methodType := bytes "GET",
                                     methodUrl := bytes "/user-agent" },
                         httpVersion := bytes "HTTP/1.1" },
        requestBody := { body := [] },
        headers := { headers.zero with userAgent := bytes "test-client/1.0" } }
      ⟨fun _ => none, fun _ => true, []⟩ =
      .ok (bytes "HTTP/1.1 200 OK\r\nContent-Type: text/plain\r\nContent-Length: 15\r\n\r\ntest-client/1.0",
           ⟨fun _ => none, fun _ => true, []⟩) :=
  (C11_user_agent (bytes "/tmp/") (fun b => b) ⟨fun _ => none, fun _ => true, []⟩ _ rfl rfl
      (by decide)).2
    (bytes "GET /user-agent HTTP/1.1\r\nUser-Agent: test-client/1.0\r\n\r\n") rfl (by decide)

/-- C12. For every GET request whose first path segment is `files` and whose file read
fails, whatever its Accept-Encoding header, `endpointMapper` returns exactly the bare
404 response: status 404, no headers, empty body; the file system is not touched. -/
theorem C12_missing_file (directoryPath : Str) (gz : Str → Str) (fs : FS) (req : httpRequest)
    (name : Str)
    (hm : req.requestLine.method.methodType = bytes "GET")
    (hseg : index (Split req.requestLine.method.methodUrl (bytes "/")) 1 = .ok (bytes "files"))
    (hname : index (Split req.requestLine.method.methodUrl (bytes "/")) 2 = .ok name)
    (hread : osReadFile fs (directoryPath ++ name) = none) :
    endpointMapper directoryPath gz req fs
      = .ok (bytes "HTTP/1.1 404 Not Found\r\n\r\n", fs) := by
  have h0 : bytes "files" ≠ [] := by decide
  have h1 : bytes "files" ≠ bytes "echo" := by decide
  have h2 : bytes "files" ≠ bytes "user-agent" := by decide
  simp only [endpointMapper, getFile, hm, hseg, hname, hread, if_true, h0, h1, h2, if_false,
    httpResponseParser_notFound]

/-- C12 at `GET /files/missing.txt` with `Accept-Encoding: gzip` on an empty directory. -/
theorem C12_missing_file_witness :
    endpointMapper (bytes "/tmp/") (fun b => b)
      { requestLine := { method := { methodType := bytes "GET",
                                     methodUrl := bytes "/files/missing.txt" },
                         httpVersion := bytes "HTTP/1.1" },
        requestBody := { body := [] },
        headers := { headers.zero with acceptEncoding := bytes "gzip" } }
      ⟨fun _ => none, fun _ => true, []⟩
      = .ok (bytes "HTTP/1.1 404 Not Found\r\n\r\n", ⟨fun _ => none, fun _ => true, []⟩) :=
  C12_missing_file (bytes "/tmp/") (fun b => b) ⟨fun _ => none, fun _ => true, []⟩ _
    (bytes "missing.txt") rfl rfl rfl rfl

/-- C13. For every request with method GET and path `/`, whatever its headers and body,
`endpointMapper` returns exactly the status line 200 followed by a blank line: the
header section is the status line alone (no Content-Type, Content-Length or
Content-Encoding header) and the body is empty; the file system is not touched. -/
theorem C13_root (directoryPath : Str) (gz : Str → Str) (fs : FS) (req : httpRequest)
    (hm : req.requestLine.method.methodType = bytes "GET")
    (hp : req.requestLine.method.methodUrl = bytes "/") :
    endpointMapper directoryPath gz req fs = .ok (bytes "HTTP/1.1 200 OK\r\n\r\n", fs) ∧
    headerSection (bytes "HTTP/1.1 200 OK\r\n\r\n") = [bytes "HTTP/1.1 200 OK"] ∧
    bytes "HTTP/1.1 200 OK\r\n\r\n" = bytes "HTTP/1.1 200 OK" ++ bytes "\r\n" ++ bytes "\r\n" := by
  have hsplit : Split req.requestLine.method.methodUrl (bytes "/") = [[], []] := by
    rw [hp]; decide
  refine ⟨?_, by decide, by decide⟩
  simp only [endpointMapper, hm, hsplit, index_one, if_true]

/-- C13 at `GET /` with `Accept-Encoding: gzip` and a body. -/
theorem C13_root_witness :
    endpointMapper (bytes "/tmp/") (fun b => b)
      { requestLine := { method := { methodType := bytes "GET", methodUrl := bytes "/" },
                         httpVersion := bytes "HTTP/1.1" },
        requestBody := { body := bytes "ignored" },
        headers := { headers.zero with acceptEncoding := bytes "gzip" } }
      ⟨fun _ => none, fun _ => true, []⟩
      = .ok (bytes "HTTP/1.1 200 OK\r\n\r\n", ⟨fun _ => none, fun _ => true, []⟩) :=
  (C13_root (bytes "/tmp/") (fun b => b) ⟨fun _ => none, fun _ => true, []⟩ _ rfl rfl).1

/-! ## C14 and C15: header values -/

set_option maxRecDepth 10000 in
/-- C14, as stated, fails: the raw request with the header line
`User-Agent: Mozilla/5.0 (X11; Linux)` parses into a request whose userAgent field is
`Mozilla/5.0`, the text between the first and the second space, not the whole text
`Mozilla/5.0 (X11; Linux)` after the first space. -/
theorem C14_counterexample :
    wireHeaderValue (bytes "User-Agent:")
        (bytes "GET / HTTP/1.1\r\nUser-Agent: Mozilla/5.0 (X11; Linux)\r\n\r\n")
      = some (bytes "Mozilla/5.0 (X11; Linux)") ∧
    httpReqParser (bytes "GET / HTTP/1.1\r\nUser-Agent: Mozilla/5.0 (X11; Linux)\r\n\r\n")
      = .ok { requestLine := { method := { methodType := bytes "GET", methodUrl := bytes "/" },
                               httpVersion := bytes "HTTP/1.1" },
              requestBody := { body := [] },
              headers := { headers.zero with userAgent := bytes "Mozilla/5.0" } } ∧
    bytes "Mozilla/5.0" ≠ bytes "Mozilla/5.0 (X11; Linux)" :=
  ⟨by decide, rfl, by decide⟩

/-- C14, amended. For every raw request that `httpReqParser` parses, each of the fields
host, userAgent and accept equals the value token of the last header line named
`Host:`, `User-Agent:` or `Accept:`: the text of that line after its first space up to
the next space or the end of the line (empty when there is no such line); it is the
whole text after the first space exactly when that text has no further space. -/
theorem C14_value_token (raw : Str) (req : httpRequest) (h : httpReqParser raw = .ok req) :
    req.headers.host = (((wireHeaderValue (bytes "Host:") raw).map firstToken).getD []) ∧
    req.headers.userAgent
      = (((wireHeaderValue (bytes "User-Agent:") raw).map firstToken).getD []) ∧
    req.headers.accept = (((wireHeaderValue (bytes "Accept:") raw).map firstToken).getD []) ∧
    (∀ v : Str, (32 : UInt8) ∉ v → firstToken v = v) ∧
    (∀ v w : Str, (32 : UInt8) ∉ v → firstToken (v ++ 32 :: w) = v) := by
  obtain ⟨h1, h2, h3⟩ := httpReqParser_fields raw req h
  refine ⟨h1, h2, h3, fun v hv => (takeWhile_of_not_mem 32 v hv).1, fun v w hv => ?_⟩
  unfold firstToken
  rw [List.takeWhile_append, (takeWhile_of_not_mem 32 v hv).1]
  simp

set_option maxRecDepth 10000 in
/-- C14, amended, at a raw request with the headers `Host: localhost:4221`,
`User-Agent: curl/8.0 (x y)` and `Accept: text/html`. -/
theorem C14_value_token_witness :
    (bytes "localhost:4221" = (((wireHeaderValue (bytes "Host:")
        (bytes "GET / HTTP/1.1\r\nHost: localhost:4221\r\nUser-Agent: curl/8.0 (x y)\r\nAccept: text/html\r\n\r\n")).map
          firstToken).getD []) ∧
    bytes "curl/8.0" = (((wireHeaderValue (bytes "User-Agent:")
        (bytes "GET / HTTP/1.1\r\nHost: localhost:4221\r\nUser-Agent: curl/8.0 (x y)\r\nAccept: text/html\r\n\r\n")).map
          firstToken).getD []) ∧
    bytes "text/html" = (((wireHeaderValue (bytes "Accept:")
        (bytes "GET / HTTP/1.1\r\nHost: localhost:4221\r\nUser-Agent: curl/8.0 (x y)\r\nAccept: text/html\r\n\r\n")).map
          firstToken).getD []) ∧
    (∀ v : Str, (32 : UInt8) ∉ v → firstToken v = v) ∧
    (∀ v w : Str, (32 : UInt8) ∉ v → firstToken (v ++ 32 :: w) = v)) :=
  C14_value_token
    (bytes "GET / HTTP/1.1\r\nHost: localhost:4221\r\nUser-Agent: curl/8.0 (x y)\r\nAccept: text/html\r\n\r\n")
    { requestLine := { method := { methodType := bytes "GET", methodUrl := bytes "/" },
                       httpVersion := bytes "HTTP/1.1" },
      requestBody := { body := [] },
      headers := { headers.zero with host := bytes "localhost:4221",
                                     userAgent := bytes "curl/8.0",
                                     accept := bytes "text/html" } }
    rfl

theorem Atoi_nonneg (v : Str) (n : Int) (h : Atoi v = some n) (hsign : v.head? ≠ some 45) :
    0 ≤ n := by
  unfold Atoi at h
  cases v with
  | nil => simp at h
  | cons c rest =>
      have hc : c ≠ 45 := fun e => hsign (by simp [e])
      simp only [hc, if_false] at h
      by_cases hp : c = 43
      · simp only [hp, if_true] at h
        split_ifs at h <;>
          (injection h with h; rw [← h]; first | exact Int.ofNat_nonneg _ | (exfalso; simp_all))
      · simp only [hp, if_false] at h
        split_ifs at h <;>
          (injection h with h; rw [← h]; first | exact Int.ofNat_nonneg _ | (exfalso; simp_all))

theorem head?_takeWhile (p : UInt8 → Bool) (l : Str) (x : UInt8)
    (h : (l.takeWhile p).head? = some x) : l.head? = some x := by
  cases l with
  | nil => simp at h
  | cons y ys =>
      rw [List.takeWhile_cons] at h
      split at h
      · simpa using h
      · simp at h

set_option maxRecDepth 10000 in
/-- C15, as stated, fails: the raw request with the header `Content-Length: -5` parses
into a request whose contentLength is the negative integer -5, and dispatching that
request to `postFile` stops with the panic of `make` on a negative length; with the
header `Content-Length: 9223372036854775807` the contentLength is not negative but above
the allocation limit, and `make` panics as well. -/
theorem C15_counterexample :
    httpReqParser (bytes "POST /files/x HTTP/1.1\r\nContent-Length: -5\r\n\r\nhi")
      = .ok { requestLine := { method := { methodType := bytes "POST",
                                           methodUrl := bytes "/files/x" },
                               httpVersion := bytes "HTTP/1.1" },
              requestBody := { body := bytes "hi" },
              headers := { headers.zero with contentLength := -5 } } ∧
    ¬ (0 : Int) ≤ -5 ∧
    (∀ (directoryPath : Str) (gz : Str → Str) (fs : FS),
      handle directoryPath gz (bytes "POST /files/x HTTP/1.1\r\nContent-Length: -5\r\n\r\nhi") fs
        = .error .makesliceLenOutOfRange) ∧
    httpReqParser
        (bytes "POST /files/x HTTP/1.1\r\nContent-Length: 9223372036854775807\r\n\r\nhi")
      = .ok { requestLine := { method := { methodType := bytes "POST",
                                           methodUrl := bytes "/files/x" },
                               httpVersion := bytes "HTTP/1.1" },
              requestBody := { body := bytes "hi" },
              headers := { headers.zero with contentLength := 9223372036854775807 } } ∧
    (∀ (directoryPath : Str) (gz : Str → Str) (fs : FS),
      handle directoryPath gz
          (bytes "POST /files/x HTTP/1.1\r\nContent-Length: 9223372036854775807\r\n\r\nhi") fs
        = .error .makesliceLenOutOfRange) :=
  ⟨rfl, by decide, fun _ _ _ => rfl, rfl, fun _ _ _ => rfl⟩

/-- The contentLength of a parsed request is not negative when no Content-Length value
begins with a minus sign. -/
theorem contentLength_nonneg_of_sign (raw : Str) (req : httpRequest)
    (h : httpReqParser raw = .ok req)
    (hsign : ∀ l ∈ requestHeaderLines raw, firstToken l = bytes "Content-Length:" →
      (afterFirstSpace l).head? ≠ some 45) :
    0 ≤ req.headers.contentLength := by
  have hh := (httpReqParser_ok raw req h).2.2.2.1
  rw [hh, foldl_proj (fun hs => hs.contentLength)
    (fun l b => if firstToken l = bytes "Content-Length:" then (Atoi (secondToken l)).getD b
      else b) headerStep_contentLength]
  have key : ∀ (ls : List Str) (b : Int), 0 ≤ b →
      (∀ l ∈ ls, firstToken l = bytes "Content-Length:" → (afterFirstSpace l).head? ≠ some 45) →
      0 ≤ ls.foldl (fun b l => if firstToken l = bytes "Content-Length:" then
        (Atoi (secondToken l)).getD b else b) b := by
    intro ls
    induction ls with
    | nil => intro b hb _; exact hb
    | cons l ls ih =>
        intro b hb hl
        rw [List.foldl_cons]
        apply ih
        · by_cases hn : firstToken l = bytes "Content-Length:"
          · rw [if_pos hn]
            cases ha : Atoi (secondToken l) with
            | none => exact hb
            | some n =>
                apply Atoi_nonneg (secondToken l) n ha
                intro h45
                exact hl l (List.mem_cons_self _ _) hn (head?_takeWhile _ _ _ h45)
          · rw [if_neg hn]; exact hb
        · exact fun l' hl' => hl l' (List.mem_cons_of_mem _ hl')
  exact key _ _ (le_refl _) hsign

/-- C15, amended. For every raw request that `httpReqParser` parses and in which no
Content-Length header value begins with a minus sign, the resulting
headers.contentLength is a non-negative integer; when it is moreover not above the
allocation limit, the buffer of that length allocated by `postFile` is well defined:
`make` returns that many zero bytes. -/
theorem C15_contentLength_nonneg (raw : Str) (req : httpRequest)
    (h : httpReqParser raw = .ok req)
    (hsign : ∀ l ∈ requestHeaderLines raw, firstToken l = bytes "Content-Length:" →
      (afterFirstSpace l).head? ≠ some 45) :
    0 ≤ req.headers.contentLength ∧
    (req.headers.contentLength ≤ (maxAlloc : Int) →
      make req.headers.contentLength
        = .ok (List.replicate req.headers.contentLength.toNat 0) ∧
      ((List.replicate req.headers.contentLength.toNat (0 : UInt8)).length : Int)
        = req.headers.contentLength) := by
  have hnonneg : 0 ≤ req.headers.contentLength := by
    exact contentLength_nonneg_of_sign raw req h hsign
  refine ⟨hnonneg, fun hmax => ⟨?_, ?_⟩⟩
  · unfold make
    rw [if_neg (by omega)]
  · rw [List.length_replicate]
    omega

set_option maxRecDepth 10000 in
/-- C15, amended, at a raw request with the header `Content-Length: 5`. -/
theorem C15_contentLength_nonneg_witness :
    (0 : Int) ≤ 5 ∧
    ((5 : Int) ≤ (maxAlloc : Int) →
      make 5 = .ok (List.replicate (5 : Int).toNat 0) ∧
      ((List.replicate (5 : Int).toNat (0 : UInt8)).length : Int) = 5) :=
  C15_contentLength_nonneg
    (bytes "POST /files/x HTTP/1.1\r\nContent-Length: 5\r\n\r\nhello")
    { requestLine := { method := { methodType := bytes "POST", methodUrl := bytes "/files/x" },
                       httpVersion := bytes "HTTP/1.1" },
      requestBody := { body := bytes "hello" },
      headers := { headers.zero with contentLength := 5 } }
    rfl
    (fun l hl hn => by
      have hlines : requestHeaderLines
          (bytes "POST /files/x HTTP/1.1\r\nContent-Length: 5\r\n\r\nhello")
          = [bytes "Content-Length: 5"] := by decide
      rw [hlines] at hl
      simp only [List.mem_singleton] at hl
      subst hl
      decide)

/-! ## Lines and bytes -/

/-- Splitting on CRLF where the input does not start with CRLF: the first byte joins
the first piece of the rest. -/
theorem Split_crlf_nomatch (x : UInt8) (rest : Str)
    (h : ¬ (x = 13 ∧ rest.head? = some 10)) :
    Split (x :: rest) (bytes "\r\n") =
      match Split rest (bytes "\r\n") with
      | [] => [[x]]
      | l :: ls => (x :: l) :: ls := by
  by_cases hx : x = 13
  · subst hx
    cases rest with
    | nil => simp [Split, splitAux, bytes_crlf]
    | cons y ys =>
        have hy : y ≠ 10 := fun e => h ⟨rfl, by simp [e]⟩
        simp [Split, splitAux, bytes_crlf, Ne.symm hy]
  · exact Split_crlf_cons x rest hx

/-- An induction principle for CRLF-delimited text: the empty text, text that starts
with CRLF, and text that starts with a byte that does not open a CRLF. -/
theorem crlf_induction (P : Str → Prop) (hnil : P [])
    (hmatch : ∀ rest, P rest → P (13 :: 10 :: rest))
    (hother : ∀ x rest, ¬ (x = 13 ∧ rest.head? = some 10) → P rest → P (x :: rest)) :
    ∀ s, P s := by
  have key : ∀ (n : Nat) (s : Str), s.length ≤ n → P s := by
    intro n
    induction n with
    | zero =>
        intro s hs
        cases s with
        | nil => exact hnil
        | cons x rest => simp at hs
    | succ n ih =>
        intro s hs
        cases s with
        | nil => exact hnil
        | cons x rest =>
            simp only [List.length_cons] at hs
            by_cases hm : x = 13 ∧ rest.head? = some 10
            · obtain ⟨rfl, hr⟩ := hm
              cases rest with
              | nil => simp at hr
              | cons y ys =>
                  have hy : y = 10 := by simpa using hr
                  subst hy
                  simp only [List.length_cons] at hs
                  exact hmatch ys (ih ys (by omega))
            · exact hother x rest hm (ih rest (by omega))
  exact fun s => key s.length s (le_refl _)

theorem Join_cons_cons (a b : Str) (ls : List Str) (sep : Str) :
    Join (a :: b :: ls) sep = a ++ sep ++ Join (b :: ls) sep := rfl

theorem Join_cons_of_ne (a : Str) (ls : List Str) (sep : Str) (h : ls ≠ []) :
    Join (a :: ls) sep = a ++ sep ++ Join ls sep := by
  cases ls with
  | nil => exact absurd rfl h
  | cons b ls => rfl

theorem Join_cons_head (x : UInt8) (l : Str) (ls : List Str) (sep : Str) :
    Join ((x :: l) :: ls) sep = x :: Join (l :: ls) sep := by
  cases ls <;> simp [Join]

/-- Joining the lines of a text with CRLF gives the text back. -/
theorem Join_Split_crlf : ∀ s : Str, Join (Split s (bytes "\r\n")) (bytes "\r\n") = s := by
  apply crlf_induction
  · rfl
  · intro rest ih
    rw [Split_crlf_crlf, Join_cons_of_ne _ _ _ (Split_ne_nil _ _), ih]
    rfl
  · intro x rest hm ih
    rw [Split_crlf_nomatch x rest hm]
    cases hsp : Split rest (bytes "\r\n") with
    | nil => exact absurd hsp (Split_ne_nil _ _)
    | cons l ls =>
        rw [hsp] at ih
        simp only
        rw [Join_cons_head, ih]

/-- No line of a text contains a CRLF, and the first line starts with the first byte
of the text. -/
theorem Split_crlf_pieces : ∀ s : Str,
    (∀ l ∈ Split s (bytes "\r\n"), ¬ bytes "\r\n" <:+: l) ∧
    (∀ c, ((Split s (bytes "\r\n")).headD []).head? = some c → s.head? = some c) := by
  apply crlf_induction
  · refine ⟨?_, ?_⟩
    · intro l hl
      rw [Split_nil] at hl
      simp only [List.mem_singleton] at hl
      subst hl
      decide
    · intro c hc
      rw [Split_nil] at hc
      simp at hc
  · intro rest ih
    rw [Split_crlf_crlf]
    refine ⟨?_, ?_⟩
    · intro l hl
      rcases List.mem_cons.mp hl with rfl | hl
      · decide
      · exact ih.1 l hl
    · intro c hc
      simp at hc
  · intro x rest hm ih
    rw [Split_crlf_nomatch x rest hm]
    cases hsp : Split rest (bytes "\r\n") with
    | nil => exact absurd hsp (Split_ne_nil _ _)
    | cons l ls =>
        rw [hsp] at ih
        simp only
        refine ⟨?_, ?_⟩
        · intro l' hl'
          rcases List.mem_cons.mp hl' with rfl | hl'
          · intro hinf
            rcases List.infix_cons_iff.mp hinf with hpre | hinf'
            · rw [bytes_crlf] at hpre
              obtain ⟨t, ht⟩ := hpre
              simp only [List.cons_append, List.nil_append, List.cons.injEq] at ht
              obtain ⟨hx, hl⟩ := ht
              apply hm
              refine ⟨hx.symm, ih.2 10 ?_⟩
              simp [← hl]
            · exact ih.1 l (List.mem_cons_self _ _) hinf'
          · exact ih.1 l' (List.mem_cons_of_mem _ hl')
        · intro c hc
          simpa using hc

theorem Join_append (sep : Str) : ∀ (a b : List Str), a ≠ [] → b ≠ [] →
    Join (a ++ b) sep = Join a sep ++ sep ++ Join b sep
  | [], _, ha, _ => absurd rfl ha
  | [x], b, _, hb => by
      rw [List.singleton_append, Join_cons_of_ne x b sep hb]
      rfl
  | x :: y :: rest, b, _, hb => by
      have ih := Join_append sep (y :: rest) b (by simp) hb
      rw [List.cons_append, Join_cons_of_ne x _ sep (by simp), ih, Join_cons_cons]
      simp only [List.append_assoc]

theorem Join_cons_tail (a : Str) (ls : List Str) (sep : Str) :
    Join (a :: ls) sep = a ++ (if ls = [] then [] else sep ++ Join ls sep) := by
  cases ls with
  | nil => simp [Join]
  | cons b ls => simp [Join_cons_cons, List.append_assoc]

theorem list_decomp {α : Type} (ls : List α) (k : Nat) (a b : α) (h1 : ls[k]? = some a)
    (h2 : ls[k + 1]? = some b) : ls = ls.take k ++ a :: b :: ls.drop (k + 2) := by
  have hk : k < ls.length := (List.getElem?_eq_some_iff.mp h1).1
  have hk1 : k + 1 < ls.length := (List.getElem?_eq_some_iff.mp h2).1
  have ha : ls[k] = a := (List.getElem?_eq_some_iff.mp h1).2
  have hb : ls[k + 1] = b := (List.getElem?_eq_some_iff.mp h2).2
  conv_lhs => rw [← List.take_append_drop k ls]
  rw [List.drop_eq_getElem_cons hk, List.drop_eq_getElem_cons hk1, ha, hb]

theorem take_takeWhile_length {α : Type} (p : α → Bool) (ls : List α) :
    ls.take (ls.takeWhile p).length = ls.takeWhile p := by
  induction ls with
  | nil => rfl
  | cons x xs ih =>
      rw [List.takeWhile_cons]
      split
      · simp [ih]
      · simp

/-- The lines of a parsed raw request: the request line, the header lines (none of
them empty), the empty line, the line taken as body, and what follows. -/
theorem httpReqParser_lines (raw : Str) (req : httpRequest) (h : httpReqParser raw = .ok req) :
    ∃ line0 post,
      Split raw (bytes "\r\n")
        = line0 :: (requestHeaderLines raw ++ [] :: req.requestBody.body :: post) := by
  obtain ⟨-, -, -, -, h1, h2⟩ := httpReqParser_ok raw req h
  have hdec := list_decomp _ _ _ _ h1 h2
  have htake : ((Split raw (bytes "\r\n")).drop 1).take (requestHeaderLines raw).length
      = requestHeaderLines raw := take_takeWhile_length _ _
  rw [htake] at hdec
  cases hsp : Split raw (bytes "\r\n") with
  | nil => exact absurd hsp (Split_ne_nil _ _)
  | cons line0 ls =>
      rw [hsp] at hdec
      simp only [List.drop_succ_cons, List.drop_zero] at hdec
      exact ⟨line0, _, by rw [← hdec]⟩

/-! ## C16: the body -/

set_option maxRecDepth 10000 in
/-- C16, as stated, fails: in the raw request `POST /files/x` with the body bytes `ab`,
CRLF, `cd` after the empty line, the body returned by `httpReqParser` is `ab`, the
bytes up to the CRLF inside the body, not all the bytes that follow the empty line. -/
theorem C16_counterexample :
    bytes "POST /files/x HTTP/1.1\r\nContent-Length: 6\r\n\r\nab\r\ncd"
      = bytes "POST /files/x HTTP/1.1\r\nContent-Length: 6" ++ bytes "\r\n" ++ bytes "\r\n"
          ++ bytes "ab\r\ncd" ∧
    httpReqParser (bytes "POST /files/x HTTP/1.1\r\nContent-Length: 6\r\n\r\nab\r\ncd")
      = .ok { requestLine := { method := { methodType := bytes "POST",
                                           methodUrl := bytes "/files/x" },
                               httpVersion := bytes "HTTP/1.1" },
              requestBody := { body := bytes "ab" },
              headers := { headers.zero with contentLength := 6 } } ∧
    bytes "ab" ≠ bytes "ab\r\ncd" :=
  ⟨by decide, rfl, by decide⟩

/-- C16, amended. For every raw request that `httpReqParser` parses, the body returned
is the CRLF-delimited line that follows the empty line ending the headers: the buffer is
the request line and the header lines (none empty) joined by CRLF, then CRLF, CRLF, the
body, and then either nothing or a CRLF and further bytes; the body contains no CRLF, so
it ends at the next CRLF or at the end of the buffer and the bytes after that CRLF are
not part of it. -/
theorem C16_body_line (raw : Str) (req : httpRequest) (h : httpReqParser raw = .ok req) :
    ∃ line0 post,
      Split raw (bytes "\r\n")
        = line0 :: (requestHeaderLines raw ++ [] :: req.requestBody.body :: post) ∧
      (∀ l ∈ requestHeaderLines raw, l ≠ []) ∧
      ¬ bytes "\r\n" <:+: req.requestBody.body ∧
      raw = Join (line0 :: requestHeaderLines raw) (bytes "\r\n") ++ bytes "\r\n" ++ bytes "\r\n"
              ++ req.requestBody.body
              ++ (if post = [] then [] else bytes "\r\n" ++ Join post (bytes "\r\n")) := by
  obtain ⟨line0, post, hlines⟩ := httpReqParser_lines raw req h
  refine ⟨line0, post, hlines, ?_, ?_, ?_⟩
  · intro l hl
    have := List.mem_takeWhile_imp hl
    simpa using this
  · apply (Split_crlf_pieces raw).1
    rw [hlines]
    simp
  · have hj := Join_Split_crlf raw
    rw [hlines] at hj
    generalize requestHeaderLines raw = hdrs at hj ⊢
    have happ : line0 :: (hdrs ++ [] :: req.requestBody.body :: post)
        = (line0 :: hdrs) ++ ([] :: req.requestBody.body :: post) := by simp
    rw [happ, Join_append _ _ _ (by simp) (by simp),
      Join_cons_cons [] req.requestBody.body post,
      Join_cons_tail req.requestBody.body post] at hj
    conv_lhs => rw [← hj]
    simp only [List.append_assoc, List.nil_append]

set_option maxRecDepth 10000 in
/-- C16, amended, at a raw request whose body `hello` runs to the end of the buffer. -/
theorem C16_body_line_witness :
    ∃ line0 post,
      Split (bytes "POST /files/x HTTP/1.1\r\nContent-Length: 5\r\n\r\nhello") (bytes "\r\n")
        = line0 :: (requestHeaderLines
            (bytes "POST /files/x HTTP/1.1\r\nContent-Length: 5\r\n\r\nhello")
              ++ [] :: bytes "hello" :: post) ∧
      (∀ l ∈ requestHeaderLines
          (bytes "POST /files/x HTTP/1.1\r\nContent-Length: 5\r\n\r\nhello"), l ≠ []) ∧
      ¬ bytes "\r\n" <:+: bytes "hello" ∧
      bytes "POST /files/x HTTP/1.1\r\nContent-Length: 5\r\n\r\nhello"
        = Join (line0 :: requestHeaderLines
            (bytes "POST /files/x HTTP/1.1\r\nContent-Length: 5\r\n\r\nhello")) (bytes "\r\n")
          ++ bytes "\r\n" ++ bytes "\r\n" ++ bytes "hello"
          ++ (if post = [] then [] else bytes "\r\n" ++ Join post (bytes "\r\n")) :=
  C16_body_line (bytes "POST /files/x HTTP/1.1\r\nContent-Length: 5\r\n\r\nhello")
    { requestLine := { method := { methodType := bytes "POST", methodUrl := bytes "/files/x" },
                       httpVersion := bytes "HTTP/1.1" },
      requestBody := { body := bytes "hello" },
      headers := { headers.zero with contentLength := 5 } }
    rfl

/-! ## C17 and C19: the serializer -/

/-- C17. For every body, content type `ct` and non-empty encoding `e`, serializing the
response built with status 200 gives exactly the status line, `Content-Encoding: e`,
`Content-Type: ct`, `Content-Length` with the decimal length of the compressed body, a
blank line and the compressed body; with the empty encoding it gives exactly the status
line, `Content-Type: ct`, `Content-Length` with the decimal length of the body, a blank
line and the body. -/
theorem C17_serialize (gz : Str → Str) (body ct e : Str) (he : e ≠ []) :
    httpResponseParser gz (httpResponseBuilder body ct (bytes "HTTP/1.1 200 OK") e)
      = bytes "HTTP/1.1 200 OK\r\nContent-Encoding: " ++ e ++ bytes "\r\nContent-Type: " ++ ct
          ++ bytes "\r\nContent-Length: " ++ Itoa ((gz body).length : Int) ++ bytes "\r\n\r\n"
          ++ gz body ∧
    httpResponseParser gz (httpResponseBuilder body ct (bytes "HTTP/1.1 200 OK") [])
      = bytes "HTTP/1.1 200 OK\r\nContent-Type: " ++ ct ++ bytes "\r\nContent-Length: "
          ++ Itoa (body.length : Int) ++ bytes "\r\n\r\n" ++ body :=
  ⟨httpResponseParser_encoded gz body ct e he, httpResponseParser_plain gz body ct⟩

/-- C17 at the body `abc`, content type `text/plain`, encoding `gzip`, with a
compression function that doubles its input. -/
theorem C17_serialize_witness :
    httpResponseParser (fun b => b ++ b)
        (httpResponseBuilder (bytes "abc") (bytes "text/plain") (bytes "HTTP/1.1 200 OK")
          (bytes "gzip"))
      = bytes "HTTP/1.1 200 OK\r\nContent-Encoding: " ++ bytes "gzip" ++ bytes "\r\nContent-Type: "
          ++ bytes "text/plain" ++ bytes "\r\nContent-Length: "
          ++ Itoa ((bytes "abc" ++ bytes "abc").length : Int) ++ bytes "\r\n\r\n"
          ++ (bytes "abc" ++ bytes "abc") ∧
    httpResponseParser (fun b => b ++ b)
        (httpResponseBuilder (bytes "abc") (bytes "text/plain") (bytes "HTTP/1.1 200 OK") [])
      = bytes "HTTP/1.1 200 OK\r\nContent-Type: " ++ bytes "text/plain"
          ++ bytes "\r\nContent-Length: " ++ Itoa ((bytes "abc").length : Int) ++ bytes "\r\n\r\n"
          ++ bytes "abc" :=
  C17_serialize (fun b => b ++ b) (bytes "abc") (bytes "text/plain") (bytes "gzip") (by decide)

/-- C19. For every response record whose status string is anything other than exactly
`HTTP/1.1 200 OK`, `httpResponseParser` returns exactly the bare 404 response, whatever
the record's headers, encoding and body. -/
theorem C19_non200_is_404 (gz : Str → Str) (res : httpResponse)
    (h : res.statusLine.status ≠ bytes "HTTP/1.1 200 OK") :
    httpResponseParser gz res = bytes "HTTP/1.1 404 Not Found\r\n\r\n" := by
  unfold httpResponseParser
  rw [if_pos h]

/-- C19 at a record with status `HTTP/1.1 201 Created`, headers and a body. -/
theorem C19_non200_is_404_witness :
    httpResponseParser (fun b => b)
        { statusLine := { status := bytes "HTTP/1.1 201 Created" },
          responseBody := { body := bytes "created" },
          headers := { headers.zero with contentType := bytes "text/plain",
                                         contentEncoding := bytes "gzip",
                                         contentLength := 7 } }
      = bytes "HTTP/1.1 404 Not Found\r\n\r\n" :=
  C19_non200_is_404 (fun b => b) _ (by decide)

/-! ## C18: unrecognised header lines -/

/-- A line whose name is none of the five recognised names leaves the headers as they
are. -/
theorem parseHeader_unrecognised (hs : headers) (x : Str)
    (h1 : firstToken x ≠ bytes "Host:") (h2 : firstToken x ≠ bytes "User-Agent:")
    (h3 : firstToken x ≠ bytes "Accept:") (h4 : firstToken x ≠ bytes "Content-Length:")
    (h5 : firstToken x ≠ bytes "Accept-Encoding:") : parseHeader hs x = .ok hs := by
  rw [parseHeader_eq, if_neg (by simp [h1, h2, h3, h4])]
  simp [headerStep, h1, h2, h3, h4, h5]

/-- The result of the header loop does not depend on the index it starts from, except
for the index it returns. -/
theorem headerLoop_shift (n m : Nat) : ∀ (ls : List Str) (i k : Nat) (hs hs1 : headers)
    (j : Nat), headerLoop n ls i hs = .ok (hs1, j) →
    ∃ j1, headerLoop m ls k hs = .ok (hs1, j1) ∧ j1 + i = j + k
  | [], i, k, hs, hs1, j, h => by simp [headerLoop] at h
  | header :: rest, i, k, hs, hs1, j, h => by
      unfold headerLoop at h ⊢
      by_cases he : header = []
      · rw [if_pos he] at h ⊢
        injection h with h
        injection h with h1 h2
        subst h1 h2
        exact ⟨k, rfl, Nat.add_comm _ _⟩
      · rw [if_neg he] at h ⊢
        cases hp : parseHeader hs header with
        | error e => rw [hp] at h; cases h
        | ok hs2 =>
            rw [hp] at h
            simp only at h ⊢
            obtain ⟨j1, hj1, hadd⟩ := headerLoop_shift n m rest (i + 1) (k + 1) hs2 hs1 j h
            exact ⟨j1, hj1, by omega⟩

/-- The header loop over the lines with one unrecognised non-empty line inserted
before the terminating empty line: the same headers, the index one further. -/
theorem headerLoop_insert (n m : Nat) (x : Str) (post : List Str) (hx : x ≠ [])
    (hstep : ∀ hs, parseHeader hs x = .ok hs) : ∀ (a : List Str) (i : Nat) (hs hs1 : headers)
    (j : Nat), (∀ l ∈ a, l ≠ []) → headerLoop n (a ++ post) i hs = .ok (hs1, j) →
    headerLoop m (a ++ x :: post) i hs = .ok (hs1, j + 1) ∧ i + a.length ≤ j
  | [], i, hs, hs1, j, _, h => by
      obtain ⟨j1, hj1, hadd⟩ := headerLoop_shift n m post i (i + 1) hs hs1 j h
      have hj : j1 = j + 1 := by omega
      subst hj
      have hge := (headerLoop_ok n post i hs hs1 j h).2.1
      refine ⟨?_, by simp only [List.length_nil]; omega⟩
      simp only [List.nil_append]
      unfold headerLoop
      rw [if_neg hx, hstep]
      exact hj1
  | l :: a, i, hs, hs1, j, ha, h => by
      have hl : l ≠ [] := ha l (List.mem_cons_self _ _)
      simp only [List.cons_append] at h ⊢
      unfold headerLoop at h ⊢
      rw [if_neg hl] at h ⊢
      cases hp : parseHeader hs l with
      | error e => rw [hp] at h; cases h
      | ok hs2 =>
          rw [hp] at h
          simp only at h ⊢
          obtain ⟨h1, h2⟩ := headerLoop_insert n m x post hx hstep a (i + 1) hs2 hs1 j
            (fun l' hl' => ha l' (List.mem_cons_of_mem _ hl')) h
          exact ⟨h1, by simp only [List.length_cons]; omega⟩

theorem index_insert {α : Type} (a post : List α) (x : α) (k : Nat) (hk : a.length ≤ k) (b : α)
    (h : index (a ++ post) k = .ok b) : index (a ++ x :: post) (k + 1) = .ok b := by
  unfold index at h ⊢
  rw [List.get?_eq_getElem?] at h ⊢
  rw [List.getElem?_append_right hk] at h
  rw [List.getElem?_append_right (by omega)]
  have hidx : k + 1 - a.length = (k - a.length) + 1 := by omega
  rw [hidx, List.getElem?_cons_succ]
  cases hq : post[k - a.length]? with
  | none => rw [hq] at h; cases h
  | some v => rw [hq] at h; exact h

/-- C18. For every raw request that `httpReqParser` parses, inserting among its header
lines, before the terminating empty line, one more non-empty line whose first
space-separated token is none of `Host:`, `User-Agent:`, `Accept:`, `Content-Length:`,
`Accept-Encoding:` leaves the parsed request unchanged: the request with the line
inserted parses into the same method, path, version, header fields and body. -/
theorem C18_unrecognised_header (raw raw1 x : Str) (pre post : List Str) (req : httpRequest)
    (hparse : httpReqParser raw = .ok req)
    (hlines : Split raw (bytes "\r\n") = pre ++ post)
    (hlines1 : Split raw1 (bytes "\r\n") = pre ++ x :: post)
    (hpre : pre ≠ [])
    (hhdr : ∀ l ∈ pre.tail, l ≠ [])
    (hx : x ≠ [])
    (h1 : firstToken x ≠ bytes "Host:") (h2 : firstToken x ≠ bytes "User-Agent:")
    (h3 : firstToken x ≠ bytes "Accept:") (h4 : firstToken x ≠ bytes "Content-Length:")
    (h5 : firstToken x ≠ bytes "Accept-Encoding:") :
    httpReqParser raw1 = .ok req := by
  obtain ⟨line0, m0, m1, m2, hs, j, body, h0, hm0, hm1, hm2, hloop, hb, hreq⟩ :=
    httpReqParser_inv raw req hparse
  cases pre with
  | nil => exact absurd rfl hpre
  | cons l0 a =>
      rw [hlines] at h0 hloop hb
      simp only [List.cons_append, List.drop_succ_cons, List.drop_zero, index_zero] at h0 hloop
      injection h0 with h0
      subst h0
      obtain ⟨hloop1, hj⟩ := headerLoop_insert _ (l0 :: (a ++ x :: post)).length x post hx
        (fun hs => parseHeader_unrecognised hs x h1 h2 h3 h4 h5) a 1 _ _ _ hhdr hloop
      have hb1 : index ((l0 :: a) ++ x :: post) (j + 1 + 1) = .ok body :=
        index_insert (l0 :: a) post x (j + 1) (by simp only [List.length_cons]; omega) body hb
      unfold httpReqParser
      rw [hlines1]
      simp only [List.cons_append, List.drop_succ_cons, List.drop_zero, index_zero, hm0, hm1,
        hm2, hloop1]
      rw [List.cons_append] at hb1
      rw [hb1, hreq]

set_option maxRecDepth 10000 in
/-- C18 at a raw request with the header `Host: a`, inserting the line `X-Trace: 42`
after it. -/
theorem C18_unrecognised_header_witness :
    httpReqParser (bytes "GET / HTTP/1.1\r\nHost: a\r\nX-Trace: 42\r\n\r\nbody")
      = .ok { requestLine := { method := { methodType := bytes "GET", methodUrl := bytes "/" },
                               httpVersion := bytes "HTTP/1.1" },
              requestBody := { body := bytes "body" },
              headers := { headers.zero with host := bytes "a" } } :=
  C18_unrecognised_header (bytes "GET / HTTP/1.1\r\nHost: a\r\n\r\nbody")
    (bytes "GET / HTTP/1.1\r\nHost: a\r\nX-Trace: 42\r\n\r\nbody") (bytes "X-Trace: 42")
    [bytes "GET / HTTP/1.1", bytes "Host: a"] [[], bytes "body"] _
    rfl (by decide) (by decide) (by decide) (by decide) (by decide) (by decide) (by decide)
    (by decide) (by decide) (by decide)

/-! ## C20: well-formed requests are parsed -/

/-- A text that contains CRLF CRLF has an empty line that is neither its first line
nor its last. -/
theorem Split_crlf_blank : ∀ (a b : Str), ∃ pre post,
    Split (a ++ 13 :: 10 :: 13 :: 10 :: b) (bytes "\r\n") = pre ++ [] :: post ∧
    pre ≠ [] ∧ post ≠ [] := by
  intro a
  refine crlf_induction (fun a => ∀ b, ∃ pre post,
    Split (a ++ 13 :: 10 :: 13 :: 10 :: b) (bytes "\r\n") = pre ++ [] :: post ∧
    pre ≠ [] ∧ post ≠ []) ?_ ?_ ?_ a
  · intro b
    refine ⟨[[]], Split b (bytes "\r\n"), ?_, by simp, Split_ne_nil _ _⟩
    rw [List.nil_append, Split_crlf_crlf, Split_crlf_crlf]
    rfl
  · intro rest ih b
    obtain ⟨pre, post, h, hpre, hpost⟩ := ih b
    refine ⟨[] :: pre, post, ?_, by simp, hpost⟩
    rw [List.cons_append, List.cons_append, Split_crlf_crlf, h]
    rfl
  · intro x rest hm ih b
    obtain ⟨pre, post, h, hpre, hpost⟩ := ih b
    have hm1 : ¬ (x = 13 ∧ (rest ++ 13 :: 10 :: 13 :: 10 :: b).head? = some 10) := by
      cases rest with
      | nil => simp
      | cons y ys => simpa using hm
    rw [List.cons_append, Split_crlf_nomatch x _ hm1, h]
    cases pre with
    | nil => exact absurd rfl hpre
    | cons p ps => exact ⟨(x :: p) :: ps, post, rfl, by simp, hpost⟩

theorem takeWhile_length_le_of_stop : ∀ (a post : List Str),
    ((a ++ [] :: post).takeWhile (fun l => l ≠ [])).length ≤ a.length
  | [], post => by simp [List.takeWhile]
  | l :: a, post => by
      rw [List.cons_append, List.takeWhile_cons]
      split
      · simp only [List.length_cons]
        exact Nat.succ_le_succ (takeWhile_length_le_of_stop a post)
      · simp

/-- C20. For every raw buffer that contains CRLF CRLF, whose first line has at least
three space-separated tokens, and in which every non-empty line between the first line
and the first empty line contains a space, `httpReqParser` returns a request (no index
is out of range), and the method, path and version of that request are the first three
tokens of the first line. -/
theorem C20_parses (raw : Str)
    (hblank : bytes "\r\n\r\n" <:+: raw)
    (h3 : 3 ≤ (Split ((Split raw (bytes "\r\n")).headD []) (bytes " ")).length)
    (hsp : ∀ l ∈ requestHeaderLines raw, (32 : UInt8) ∈ l) :
    ∃ req, httpReqParser raw = .ok req ∧
      index (Split ((Split raw (bytes "\r\n")).headD []) (bytes " ")) 0
        = .ok req.requestLine.method.methodType ∧
      index (Split ((Split raw (bytes "\r\n")).headD []) (bytes " ")) 1
        = .ok req.requestLine.method.methodUrl ∧
      index (Split ((Split raw (bytes "\r\n")).headD []) (bytes " ")) 2
        = .ok req.requestLine.httpVersion := by
  have hex : ∃ req, httpReqParser raw = .ok req := by
    obtain ⟨a, b, hraw⟩ := hblank
    obtain ⟨pre, post, hdec, hpre, hpost⟩ := Split_crlf_blank a b
    have hraw1 : a ++ 13 :: 10 :: 13 :: 10 :: b = raw := by
      rw [← hraw]
      simp only [List.append_assoc]
      rfl
    rw [hraw1] at hdec
    cases pre with
    | nil => exact absurd rfl hpre
    | cons l0 hdrs =>
        have hdrop : (Split raw (bytes "\r\n")).drop 1 = hdrs ++ [] :: post := by
          rw [hdec]; rfl
        have hle := takeWhile_length_le_of_stop hdrs post
        have hpostlen : 1 ≤ post.length := by
          cases post with
          | nil => exact absurd rfl hpost
          | cons p ps => simp
        have hlen : (Split raw (bytes "\r\n")).length = 1 + hdrs.length + 1 + post.length := by
          rw [hdec]
          simp only [List.cons_append, List.length_cons, List.length_append]
          omega
        have hloop := headerLoop_of_spaces (Split raw (bytes "\r\n")).length
          ((Split raw (bytes "\r\n")).drop 1) 1 headers.zero hsp
          (by rw [hdrop]
              simp only [List.length_append, List.length_cons]
              omega)
        have hbody : 1 + (((Split raw (bytes "\r\n")).drop 1).takeWhile
            (fun l => l ≠ [])).length + 1 < (Split raw (bytes "\r\n")).length := by
          rw [hlen, hdrop]
          omega
        unfold httpReqParser
        simp only [index_Split_zero]
        rw [index_of_lt _ 1 (by omega), index_of_lt _ 2 (by omega)]
        simp only
        rw [hloop]
        simp only
        rw [index_of_lt _ _ hbody]
        exact ⟨_, rfl⟩
  obtain ⟨req, hreq⟩ := hex
  obtain ⟨h0, h1, h2, -⟩ := httpReqParser_ok raw req hreq
  exact ⟨req, hreq, h0, h1, h2⟩

set_option maxRecDepth 10000 in
/-- C20 at the raw request `GET /index.html HTTP/1.1` with the headers `Host: a` and
`X: y z`. -/
theorem C20_parses_witness :
    ∃ req, httpReqParser (bytes "GET /index.html HTTP/1.1\r\nHost: a\r\nX: y z\r\n\r\n") = .ok req ∧
      index (Split ((Split (bytes "GET /index.html HTTP/1.1\r\nHost: a\r\nX: y z\r\n\r\n")
          (bytes "\r\n")).headD []) (bytes " ")) 0
        = .ok req.requestLine.method.methodType ∧
      index (Split ((Split (bytes "GET /index.html HTTP/1.1\r\nHost: a\r\nX: y z\r\n\r\n")
          (bytes "\r\n")).headD []) (bytes " ")) 1
        = .ok req.requestLine.method.methodUrl ∧
      index (Split ((Split (bytes "GET /index.html HTTP/1.1\r\nHost: a\r\nX: y z\r\n\r\n")
          (bytes "\r\n")).headD []) (bytes " ")) 2
        = .ok req.requestLine.httpVersion :=
  C20_parses (bytes "GET /index.html HTTP/1.1\r\nHost: a\r\nX: y z\r\n\r\n")
    ⟨bytes "GET /index.html HTTP/1.1\r\nHost: a\r\nX: y z", [], by decide⟩
    (by decide)
    (fun l hl => by
      have hlines : requestHeaderLines
          (bytes "GET /index.html HTTP/1.1\r\nHost: a\r\nX: y z\r\n\r\n")
          = [bytes "Host: a", bytes "X: y z"] := by decide
      rw [hlines] at hl
      simp only [List.mem_cons, List.mem_singleton, List.not_mem_nil, or_false] at hl
      rcases hl with rfl | rfl <;> decide)


end HttpServer
